import Mathlib

/-!
# cxx_timed_callbacks: embedding of `gcd.hpp` and `cxx_timer_callbacks.{hpp,cpp}`

Modelling conventions.

* `std::size_t` values are natural numbers; where the source can wrap around
  (the pre-decrement of a counter) the reduction modulo `2 ^ 64` is explicit.
* A `double` is computed as an IEEE 754 binary64 number (`Double`, round to
  nearest, ties to even) and reported as the rational number it holds.
* A `TimerCallback *` is an address (a natural number); `mem` maps an address
  to the object stored there.  A `std::shared_ptr<TimerCallback>` is an
  `Option` of an address, `none` being the empty pointer.
* The `std::unordered_map` of the hive is an association list with pairwise
  distinct keys; the order of the list is the (unspecified) iteration order.
* A member function that can throw returns the outcome together with the
  state of the object at the moment it returns or throws.
* The signal set-up calls (`sigaddset`, `pthread_sigmask`, `sigwait`) and
  `pthread_cancel` are taken to succeed.
-/

namespace TimedCallbacks

/-- Exceptions of the library (`std::invalid_argument`, `std::logic_error`);
`undefined_behaviour` marks an integer division by zero. -/
inductive Error where
  | invalid_argument
  | logic_error
  | undefined_behaviour
  deriving DecidableEq, Repr

/-! ## gcd.hpp -/

/-- Two-argument `gcd(T a, T b)` of `gcd.hpp`. -/
def gcd (a b : Nat) : Nat :=
  if a = 0 then b else gcd (b % a) a
termination_by a
decreasing_by
  rename_i h
  exact Nat.mod_lt _ (Nat.pos_of_ne_zero h)

/-- Loop of `gcd(std::vector<T>)`: `rest` holds `values[i], values[i+1], ...`;
the `break` on `result == 1` returns at once. -/
def gcd_vector_loop : List Nat → Nat → Nat
  | [], result => result
  | v :: rest, result =>
    if gcd v result = 1 then gcd v result else gcd_vector_loop rest (gcd v result)

/-- Vector overload `gcd(std::vector<T> values)` of `gcd.hpp`. -/
def gcd_vector (values : List Nat) : Except Error Nat :=
  match values with
  | [] => .error .invalid_argument
  | front :: rest => .ok (gcd_vector_loop rest front)

/-! ## IEEE 754 binary64 arithmetic -/

/-- Loop computing the position of the leading binary digit: `fuel` bounds
the number of halvings. -/
def floor_log2_loop : Nat → Nat → Nat
  | 0, _ => 0
  | fuel + 1, n => if n < 2 then 0 else floor_log2_loop fuel (n / 2) + 1

/-- Position of the leading binary digit of `n` (the integer part of its
binary logarithm); 0 for `n = 0`. -/
def floor_log2 (n : Nat) : Nat :=
  floor_log2_loop n n

/-- Numerator and denominator of `p / (q * 2 ^ e)`. -/
def scale (p q : Nat) : Int → Nat × Nat
  | Int.ofNat k => (p, q * 2 ^ k)
  | Int.negSucc k => (p * 2 ^ (k + 1), q)

/-- The integer nearest to `num / den`, a tie going to the even one. -/
def round_half_even (num den : Nat) : Nat :=
  if 2 * (num % den) < den then num / den
  else if den < 2 * (num % den) then num / den + 1
  else if (num / den) % 2 = 0 then num / den
  else num / den + 1

/-- A finite non-negative IEEE 754 binary64 number: the value is
`mant * 2 ^ exp`; a non-zero number has `2 ^ 52 <= mant < 2 ^ 53`.  The
exponent is not bounded: the numbers that occur here (between 0.001 and
`2 ^ 64`) lie far inside the range of normal numbers. -/
structure Double where
  mant : Nat
  exp : Int
  deriving DecidableEq, Repr

namespace Double

/-- The rational number a `Double` holds. -/
def to_rat (d : Double) : ℚ :=
  (d.mant : ℚ) * (2 : ℚ) ^ d.exp

/-- The binary64 number nearest to `p / q * 2 ^ s` (round to nearest, ties to
even, 53 significant bits), for `q > 0`. -/
def round (p q : Nat) (s : Int) : Double :=
  if p = 0 then ⟨0, 0⟩
  else
    let e0 : Int := (floor_log2 p : Int) - (floor_log2 q : Int) - 53
    let e : Int := if 2 ^ 53 * (scale p q e0).2 ≤ (scale p q e0).1 then e0 + 1 else e0
    let m := round_half_even (scale p q e).1 (scale p q e).2
    if m = 2 ^ 53 then ⟨2 ^ 52, e + 1 + s⟩ else ⟨m, e + s⟩

/-- Conversion `static_cast<double>(n)` of a `std::size_t`. -/
def of_nat (n : Nat) : Double :=
  round n 1 0

/-- The value of a decimal literal `p / q`, such as `0.001` for `1 / 1000`: the
nearest binary64 number. -/
def of_fraction (p q : Nat) : Double :=
  round p q 0

/-- The product `a * b` of two `double`s: the exact product, rounded. -/
def mul (a b : Double) : Double :=
  round (a.mant * b.mant) 1 (a.exp + b.exp)

end Double

/-! ## TimerCallback -/

/-- Class `TimerCallback`: the set of callback functions (function pointers
as numbers, no duplicates) and the interval in milliseconds. -/
structure TimerCallback where
  callbacks : List Nat
  interval_ms : Nat
  deriving DecidableEq, Repr

namespace TimerCallback

/-- Factory `TimerCallback::create` (the constructor throws on `0`). -/
def create (interval_ms : Nat) : Except Error TimerCallback :=
  if interval_ms = 0 then .error .invalid_argument else .ok ⟨[], interval_ms⟩

/-- Member `add_callback_function`: `std::unordered_set::insert`. -/
def add_callback_function (self : TimerCallback) (callback_function : Nat) : TimerCallback :=
  if callback_function ∈ self.callbacks then self
  else ⟨callback_function :: self.callbacks, self.interval_ms⟩

/-- Member `remove_callback_function`: `std::unordered_set::erase`. -/
def remove_callback_function (self : TimerCallback) (callback_function : Nat) : TimerCallback :=
  ⟨self.callbacks.filter (fun f => f ≠ callback_function), self.interval_ms⟩

/-- Member `get_interval`: `static_cast<double>(interval_ms)`. -/
def get_interval (self : TimerCallback) : ℚ :=
  (Double.of_nat self.interval_ms).to_rat

/-- Member `invoke`: the functions called, in iteration order. -/
def invoke (self : TimerCallback) : List Nat :=
  self.callbacks

end TimerCallback

/-! ## TimerCallbackHive -/

/-- Struct `TimerCallbackHive::TimerCallbackData`. -/
structure TimerCallbackData where
  counter : Nat
  counter_init : Nat
  callback : Option Nat
  deriving DecidableEq, Repr

/-- Constructor `TimerCallbackData(std::size_t value = 0)`: both counters are
`value`, the shared pointer is default-constructed (empty). -/
def TimerCallbackData.init (value : Nat) : TimerCallbackData :=
  ⟨value, value, none⟩

/-- The interval timer `cxxitimer::ITimer_Real` as the hive uses it: the
configured interval in seconds and whether it is running. -/
structure ITimer_Real where
  interval : ℚ
  running : Bool
  deriving DecidableEq

/-- The map type `std::unordered_map<TimerCallback *, TimerCallbackData>`. -/
abbrev CallbackMap := List (Nat × TimerCallbackData)

/-- Lookup `callbacks.find(key)`. -/
def CallbackMap.find (m : CallbackMap) (key : Nat) : Option TimerCallbackData :=
  (List.find? (fun e => e.1 = key) m).map Prod.snd

/-- Access `callbacks[key]` followed by a modification `f` of the mapped
value; a missing key is first inserted with a default-constructed value. -/
def CallbackMap.index_modify (m : CallbackMap) (key : Nat)
    (f : TimerCallbackData → TimerCallbackData) : CallbackMap :=
  match m with
  | [] => [(key, f (TimerCallbackData.init 0))]
  | e :: rest =>
    if e.1 = key then (key, f e.2) :: rest
    else e :: CallbackMap.index_modify rest key f

/-- Removal `callbacks.erase(key)`. -/
def CallbackMap.erase (m : CallbackMap) (key : Nat) : CallbackMap :=
  List.filter (fun e => e.1 ≠ key) m

/-- Class `TimerCallbackHive`: the registered callbacks, the interval timer
and whether the callback thread is alive. -/
structure TimerCallbackHive where
  callbacks : CallbackMap
  timer : ITimer_Real
  timer_thread : Bool
  deriving DecidableEq

namespace TimerCallbackHive

/-- Member `add_callback`. -/
def add_callback (self : TimerCallbackHive) (callback : Nat) :
    Except Error Unit × TimerCallbackHive :=
  if self.timer.running then (.error .logic_error, self)
  else if (self.callbacks.find callback).isSome then (.ok (), self)
  else
    let m1 := self.callbacks.index_modify callback (fun _ => TimerCallbackData.init 0)
    let m2 := m1.index_modify callback (fun d => ⟨d.counter, d.counter_init, some callback⟩)
    (.ok (), ⟨m2, self.timer, self.timer_thread⟩)

/-- Member `remove_callback`. -/
def remove_callback (self : TimerCallbackHive) (callback : Nat) :
    Except Error Unit × TimerCallbackHive :=
  if self.timer.running then (.error .logic_error, self)
  else (.ok (), ⟨self.callbacks.erase callback, self.timer, self.timer_thread⟩)

/-- Member `clear`. -/
def clear (self : TimerCallbackHive) : Except Error Unit × TimerCallbackHive :=
  if self.timer.running then (.error .logic_error, self)
  else (.ok (), ⟨[], self.timer, self.timer_thread⟩)

/-- Second loop of `start`: every key of the map, in iteration order, gets a
fresh `TimerCallbackData(interval_ms / timer_tick_ms)`. -/
def start_counters (mem : Nat → TimerCallback) (timer_tick_ms : Nat)
    (m : CallbackMap) : CallbackMap :=
  List.foldl
    (fun acc e =>
      acc.index_modify e.1
        (fun _ => TimerCallbackData.init ((mem e.1).interval_ms / timer_tick_ms)))
    m m

/-- First loop of `start`: the vector `callback_intervals`. -/
def callback_intervals (mem : Nat → TimerCallback) (m : CallbackMap) : List Nat :=
  m.map (fun e => (mem e.1).interval_ms)

/-- The value `timer_tick_s` of `start`:
`static_cast<double>(timer_tick_ms) * 0.001`. -/
def timer_tick_s (timer_tick_ms : Nat) : ℚ :=
  (Double.mul (Double.of_nat timer_tick_ms) (Double.of_fraction 1 1000)).to_rat

/-- Member `start`; the result is `timer_tick_s`. -/
def start (mem : Nat → TimerCallback) (self : TimerCallbackHive) :
    Except Error ℚ × TimerCallbackHive :=
  if self.timer.running then (.error .logic_error, self)
  else if self.callbacks.isEmpty then (.error .logic_error, self)
  else
    match gcd_vector (callback_intervals mem self.callbacks) with
    | .error e => (.error e, self)
    | .ok timer_tick_ms =>
      if timer_tick_ms = 0 then (.error .undefined_behaviour, self)
      else
        (.ok (timer_tick_s timer_tick_ms),
          ⟨start_counters mem timer_tick_ms self.callbacks,
            ⟨timer_tick_s timer_tick_ms, true⟩, true⟩)

/-- Member `stop`. -/
def stop (self : TimerCallbackHive) : Except Error Unit × TimerCallbackHive :=
  if !self.timer.running then (.error .logic_error, self)
  else (.ok (), ⟨self.callbacks, ⟨self.timer.interval, false⟩, false⟩)

/-- The pre-decrement `--counter` on a `std::size_t`. -/
def pre_decrement (counter : Nat) : Nat :=
  (counter + (2 ^ 64 - 1)) % 2 ^ 64

/-- Body of the inner `for` of `thread` for one entry: the entry afterwards
and whether its callback was invoked. -/
def thread_entry (d : TimerCallbackData) : TimerCallbackData × Bool :=
  if pre_decrement d.counter = 0 then (⟨d.counter_init, d.counter_init, d.callback⟩, true)
  else (⟨pre_decrement d.counter, d.counter_init, d.callback⟩, false)

/-- One pass of the `while (true)` body of `thread` after `sigwait` returned:
the keys whose `TimerCallback` was invoked, in order, and the hive afterwards. -/
def thread_tick (self : TimerCallbackHive) : List Nat × TimerCallbackHive :=
  (self.callbacks.filterMap (fun e => if (thread_entry e.2).2 then some e.1 else none),
    ⟨self.callbacks.map (fun e => (e.1, (thread_entry e.2).1)), self.timer, self.timer_thread⟩)

/-- The first `n` passes of the loop of `thread`: the invocations as pairs
(tick number counted from 1, key), in the order they happen, and the hive
afterwards. -/
def thread (n : Nat) (self : TimerCallbackHive) : List (Nat × Nat) × TimerCallbackHive :=
  match n with
  | 0 => ([], self)
  | k + 1 =>
    let before := thread k self
    let pass := thread_tick before.2
    (before.1 ++ pass.1.map (fun key => (k + 1, key)), pass.2)

end TimerCallbackHive

/-- The registry has pairwise distinct keys (it is a map). -/
def CallbackMap.wf (m : CallbackMap) : Prop :=
  (m.map Prod.fst).Nodup

/-! ## The scenario of `timer_callback_test.cpp` -/

/-- The four objects of the test, `callback1` .. `callback4` at the addresses
1 .. 4, with the intervals 100, 500, 1000 and 250 ms. -/
def test_mem : Nat → TimerCallback := fun p =>
  ⟨[], if p = 1 then 100 else if p = 2 then 500 else if p = 3 then 1000 else 250⟩

/-- A hive as `TimerCallbackHive::get()` first returns it: nothing
registered, timer not running. -/
def empty_hive : TimerCallbackHive :=
  ⟨[], ⟨0, false⟩, false⟩

/-- The hive of the test after its four `add_callback` calls. -/
def test_hive : TimerCallbackHive :=
  ((((empty_hive.add_callback 1).2.add_callback 2).2.add_callback 3).2.add_callback 4).2

/-- The hive of the test after its first `start()`. -/
def test_active : TimerCallbackHive :=
  (TimerCallbackHive.start test_mem test_hive).2

/-- The hive of the test with its registry iterated in the opposite order. -/
def test_hive_reordered : TimerCallbackHive :=
  ⟨test_hive.callbacks.reverse, test_hive.timer, test_hive.timer_thread⟩

/-- Two objects with the intervals 9 ms (address 1) and 250 ms (any other
address). -/
def rounding_mem : Nat → TimerCallback := fun p =>
  ⟨[], if p = 1 then 9 else 250⟩

/-- A hive with the 9 ms group as its only registered group. -/
def rounding_hive : TimerCallbackHive :=
  (empty_hive.add_callback 1).2

/-- A hive with the 9 ms group and the 250 ms group registered. -/
def rounding_hive_pair : TimerCallbackHive :=
  ((empty_hive.add_callback 1).2.add_callback 2).2

/-- The calls of the test between its two `start()`: the first `start()`, `n`
passes of the thread, `stop()`, `remove_callback(g)` and `add_callback` for
every element of `readd`; the result is the hive the second `start()` sees. -/
def restart_sequence (mem : Nat → TimerCallback) (self : TimerCallbackHive) (n g : Nat)
    (readd : List Nat) : TimerCallbackHive :=
  readd.foldl (fun h r => (h.add_callback r).2)
    (((TimerCallbackHive.thread n (TimerCallbackHive.start mem self).2).2.stop).2.remove_callback
      g).2

/-! ## Facts about the gcd functions -/

theorem gcd_eq_nat_gcd (a b : Nat) : gcd a b = Nat.gcd a b := by
  induction a using Nat.strong_induction_on generalizing b with
  | _ a ih =>
    rw [gcd]
    by_cases h : a = 0
    · simp [h]
    · rw [if_neg h, ih (b % a) (Nat.mod_lt _ (Nat.pos_of_ne_zero h)) a]
      exact (Nat.gcd_rec a b).symm

theorem gcd_vector_loop_eq_foldl (rest : List Nat) (result : Nat) :
    gcd_vector_loop rest result = rest.foldl (fun r v => gcd v r) result := by
  induction rest generalizing result with
  | nil => rfl
  | cons v rest ih =>
    simp only [gcd_vector_loop, List.foldl_cons]
    split
    · next h1 =>
      rw [h1]
      clear ih h1
      induction rest with
      | nil => rfl
      | cons w rest ih2 =>
        simp only [List.foldl_cons, gcd_eq_nat_gcd, Nat.gcd_one_right]
        simpa [gcd_eq_nat_gcd] using ih2
    · exact ih _

theorem foldl_gcd_eq (rest : List Nat) (result : Nat) :
    rest.foldl (fun r v => gcd v r) result = Nat.gcd result (rest.foldr Nat.gcd 0) := by
  induction rest generalizing result with
  | nil => simp
  | cons v rest ih =>
    rw [List.foldl_cons, ih, List.foldr_cons, gcd_eq_nat_gcd, Nat.gcd_comm v result,
      Nat.gcd_assoc]

theorem gcd_vector_cons (front : Nat) (rest : List Nat) :
    gcd_vector (front :: rest) = .ok ((front :: rest).foldr Nat.gcd 0) := by
  simp [gcd_vector, gcd_vector_loop_eq_foldl, foldl_gcd_eq]

theorem foldr_gcd_dvd (l : List Nat) : ∀ v ∈ l, l.foldr Nat.gcd 0 ∣ v := by
  induction l with
  | nil => simp
  | cons a l ih =>
    intro v hv
    rcases List.mem_cons.1 hv with h | h
    · subst h; exact Nat.gcd_dvd_left _ _
    · exact (Nat.gcd_dvd_right _ _).trans (ih v h)

theorem dvd_foldr_gcd (l : List Nat) (c : Nat) (h : ∀ v ∈ l, c ∣ v) : c ∣ l.foldr Nat.gcd 0 := by
  induction l with
  | nil => simp
  | cons a l ih =>
    exact Nat.dvd_gcd (h a (List.mem_cons_self _ _)) (ih (fun v hv => h v (List.mem_cons_of_mem _ hv)))

/-! ## Facts about the binary64 arithmetic -/

theorem floor_log2_loop_spec (fuel n : Nat) (h1 : n ≤ fuel) (h2 : 0 < n) :
    2 ^ floor_log2_loop fuel n ≤ n ∧ n < 2 ^ (floor_log2_loop fuel n + 1) := by
  induction fuel generalizing n with
  | zero => omega
  | succ fuel ih =>
    unfold floor_log2_loop
    by_cases hn : n < 2
    · simp only [hn, if_true]
      omega
    · simp only [hn, if_false]
      have h := ih (n / 2) (by omega) (by omega)
      have e1 : 2 ^ (floor_log2_loop fuel (n / 2) + 1) = 2 * 2 ^ floor_log2_loop fuel (n / 2) :=
        by rw [pow_succ]; ring
      have e2 : 2 ^ (floor_log2_loop fuel (n / 2) + 1 + 1)
          = 2 * 2 ^ (floor_log2_loop fuel (n / 2) + 1) := by rw [pow_succ]; ring
      rw [e2]
      rw [e1] at h ⊢
      omega

theorem floor_log2_spec (n : Nat) (h : 0 < n) :
    2 ^ floor_log2 n ≤ n ∧ n < 2 ^ (floor_log2 n + 1) :=
  floor_log2_loop_spec n n (Nat.le_refl n) h

theorem scale_spec (p q : Nat) (e : Int) (hq : 0 < q) :
    0 < (scale p q e).2
      ∧ ((scale p q e).1 : ℚ) / ((scale p q e).2 : ℚ) * (2 : ℚ) ^ e = (p : ℚ) / (q : ℚ) := by
  have hq' : (q : ℚ) ≠ 0 := by exact_mod_cast hq.ne'
  cases e with
  | ofNat k =>
    simp only [scale]
    refine ⟨Nat.mul_pos hq (pow_pos (by decide) k), ?_⟩
    have h2 : ((2 : ℚ) ^ k) ≠ 0 := pow_ne_zero _ (by norm_num)
    simp only [Int.ofNat_eq_coe, zpow_natCast, Nat.cast_mul, Nat.cast_pow, Nat.cast_ofNat]
    field_simp
    ring
  | negSucc k =>
    simp only [scale]
    refine ⟨hq, ?_⟩
    have h2 : ((2 : ℚ) ^ (k + 1)) ≠ 0 := pow_ne_zero _ (by norm_num)
    simp only [zpow_negSucc, Nat.cast_mul, Nat.cast_pow, Nat.cast_ofNat]
    field_simp
    ring

theorem round_half_even_spec (num den : Nat) (hd : 0 < den) :
    |(round_half_even num den : ℚ) - (num : ℚ) / (den : ℚ)| ≤ 1 / 2 := by
  have hd' : (0 : ℚ) < den := by exact_mod_cast hd
  have hdiv : (num : ℚ) = (den : ℚ) * ((num / den : Nat) : ℚ) + ((num % den : Nat) : ℚ) := by
    exact_mod_cast (Nat.div_add_mod num den).symm
  have hrlt : ((num % den : Nat) : ℚ) < den := by exact_mod_cast Nat.mod_lt num hd
  have hr0 : (0 : ℚ) ≤ ((num % den : Nat) : ℚ) := Nat.cast_nonneg _
  have hq : (num : ℚ) / den = ((num / den : Nat) : ℚ) + ((num % den : Nat) : ℚ) / den := by
    rw [hdiv]; field_simp; ring
  rw [hq, abs_le]
  have hfrac0 : 0 ≤ ((num % den : Nat) : ℚ) / den := div_nonneg hr0 hd'.le
  have hdown : 2 * (num % den) ≤ den → ((num % den : Nat) : ℚ) / den ≤ 1 / 2 := by
    intro h
    rw [div_le_iff₀ hd']
    have : (2 : ℚ) * ((num % den : Nat) : ℚ) ≤ den := by exact_mod_cast h
    linarith
  have hup : den ≤ 2 * (num % den) → 1 / 2 ≤ ((num % den : Nat) : ℚ) / den := by
    intro h
    rw [le_div_iff₀ hd']
    have : (den : ℚ) ≤ 2 * ((num % den : Nat) : ℚ) := by exact_mod_cast h
    linarith
  have hfrac1 : ((num % den : Nat) : ℚ) / den ≤ 1 := by
    rw [div_le_iff₀ hd']; linarith
  unfold round_half_even
  split
  · next h => have := hdown (by omega); constructor <;> linarith
  · split
    · next h1 h2 =>
      have := hup (by omega)
      push_cast
      constructor <;> linarith
    · split
      · next h1 h2 h3 => have := hdown (by omega); constructor <;> linarith
      · next h1 h2 h3 =>
        have := hup (by omega)
        push_cast
        constructor <;> linarith

theorem scale_lower (p q : Nat) (hp : 0 < p) (hq : 0 < q) (e : Int)
    (he : e = (if 2 ^ 53 * (scale p q ((floor_log2 p : Int) - (floor_log2 q : Int) - 53)).2
                  ≤ (scale p q ((floor_log2 p : Int) - (floor_log2 q : Int) - 53)).1
                then (floor_log2 p : Int) - (floor_log2 q : Int) - 53 + 1
                else (floor_log2 p : Int) - (floor_log2 q : Int) - 53)) :
    (2 : ℚ) ^ 52 ≤ ((scale p q e).1 : ℚ) / ((scale p q e).2 : ℚ) := by
  have hq' : (0 : ℚ) < q := by exact_mod_cast hq
  obtain ⟨hd, hs⟩ := scale_spec p q e hq
  have hd' : (0 : ℚ) < ((scale p q e).2 : ℚ) := by exact_mod_cast hd
  have h2e : (0 : ℚ) < (2 : ℚ) ^ e := zpow_pos (by norm_num) e
  have hy : ((scale p q e).1 : ℚ) / ((scale p q e).2 : ℚ) = (p : ℚ) / q / (2 : ℚ) ^ e := by
    rw [← hs]; field_simp; ring
  rw [hy]
  obtain ⟨hd0, hs0⟩ := scale_spec p q ((floor_log2 p : Int) - (floor_log2 q : Int) - 53) hq
  have hd0' : (0 : ℚ) < ((scale p q ((floor_log2 p : Int) - (floor_log2 q : Int) - 53)).2 : ℚ) := by
    exact_mod_cast hd0
  have h2e0 : (0 : ℚ) < (2 : ℚ) ^ ((floor_log2 p : Int) - (floor_log2 q : Int) - 53) :=
    zpow_pos (by norm_num) _
  split at he
  · next hcase =>
    have hc : (2 : ℚ) ^ 53
        ≤ ((scale p q ((floor_log2 p : Int) - (floor_log2 q : Int) - 53)).1 : ℚ)
          / ((scale p q ((floor_log2 p : Int) - (floor_log2 q : Int) - 53)).2 : ℚ) := by
      rw [le_div_iff₀ hd0']
      exact_mod_cast hcase
    have hpq : (2 : ℚ) ^ 53 * (2 : ℚ) ^ ((floor_log2 p : Int) - (floor_log2 q : Int) - 53)
        ≤ (p : ℚ) / q := by
      rw [← hs0]
      exact mul_le_mul_of_nonneg_right hc h2e0.le
    rw [he, le_div_iff₀ (zpow_pos (by norm_num) _), zpow_add₀ (by norm_num : (2 : ℚ) ≠ 0)]
    calc (2 : ℚ) ^ 52 * ((2 : ℚ) ^ ((floor_log2 p : Int) - (floor_log2 q : Int) - 53) * 2 ^ (1 : ℤ))
        = (2 : ℚ) ^ 53 * (2 : ℚ) ^ ((floor_log2 p : Int) - (floor_log2 q : Int) - 53) := by
          rw [zpow_one]; ring
      _ ≤ (p : ℚ) / q := hpq
  · next hcase =>
    obtain ⟨hp1, _⟩ := floor_log2_spec p hp
    obtain ⟨_, hq2⟩ := floor_log2_spec q hq
    have hp1' : (2 : ℚ) ^ (floor_log2 p : ℤ) ≤ (p : ℚ) := by
      rw [zpow_natCast]; exact_mod_cast hp1
    have hq2' : (q : ℚ) ≤ (2 : ℚ) ^ ((floor_log2 q : ℤ) + 1) := by
      have : (q : ℚ) ≤ (2 : ℚ) ^ (floor_log2 q + 1) := by exact_mod_cast hq2.le
      rw [show ((floor_log2 q : ℤ) + 1) = ((floor_log2 q + 1 : ℕ) : ℤ) by push_cast; rfl,
        zpow_natCast]
      exact this
    rw [he, le_div_iff₀ h2e0, le_div_iff₀ hq']
    calc (2 : ℚ) ^ 52 * (2 : ℚ) ^ ((floor_log2 p : Int) - (floor_log2 q : Int) - 53) * (q : ℚ)
        ≤ (2 : ℚ) ^ 52 * (2 : ℚ) ^ ((floor_log2 p : Int) - (floor_log2 q : Int) - 53)
            * (2 : ℚ) ^ ((floor_log2 q : ℤ) + 1) :=
          mul_le_mul_of_nonneg_left hq2' (mul_nonneg (by norm_num) h2e0.le)
      _ = (2 : ℚ) ^ (floor_log2 p : ℤ) := by
          rw [show ((2 : ℚ) ^ 52) = (2 : ℚ) ^ (52 : ℤ) by norm_num,
            ← zpow_add₀ (by norm_num : (2 : ℚ) ≠ 0), ← zpow_add₀ (by norm_num : (2 : ℚ) ≠ 0)]
          congr 1
          ring
      _ ≤ (p : ℚ) := hp1'

theorem Double.round_error (p q : Nat) (s : Int) (hq : 0 < q) :
    |(Double.round p q s).to_rat - (p : ℚ) / (q : ℚ) * (2 : ℚ) ^ s|
      ≤ (p : ℚ) / (q : ℚ) * (2 : ℚ) ^ s / 2 ^ 53 := by
  by_cases hp0 : p = 0
  · simp [Double.round, hp0, Double.to_rat]
  have hp : 0 < p := Nat.pos_of_ne_zero hp0
  obtain ⟨e, he⟩ : ∃ e : Int,
      e = (if 2 ^ 53 * (scale p q ((floor_log2 p : Int) - (floor_log2 q : Int) - 53)).2
                  ≤ (scale p q ((floor_log2 p : Int) - (floor_log2 q : Int) - 53)).1
                then (floor_log2 p : Int) - (floor_log2 q : Int) - 53 + 1
                else (floor_log2 p : Int) - (floor_log2 q : Int) - 53) := ⟨_, rfl⟩
  have hlow := scale_lower p q hp hq e he
  obtain ⟨hd, hs⟩ := scale_spec p q e hq
  have hrhe := round_half_even_spec (scale p q e).1 (scale p q e).2 hd
  have h2 : (0 : ℚ) < (2 : ℚ) ^ (e + s) := zpow_pos (by norm_num) _
  have hval : (Double.round p q s).to_rat
      = (round_half_even (scale p q e).1 (scale p q e).2 : ℚ) * (2 : ℚ) ^ (e + s) := by
    simp only [Double.round, hp0, if_false, ← he]
    split
    · next hm =>
      rw [hm]
      simp only [Double.to_rat]
      rw [show e + 1 + s = (e + s) + 1 by ring, zpow_add₀ (by norm_num : (2 : ℚ) ≠ 0), zpow_one]
      push_cast
      ring
    · rfl
  have hx : (p : ℚ) / (q : ℚ) * (2 : ℚ) ^ s
      = ((scale p q e).1 : ℚ) / ((scale p q e).2 : ℚ) * (2 : ℚ) ^ (e + s) := by
    rw [← hs, zpow_add₀ (by norm_num : (2 : ℚ) ≠ 0)]
    ring
  rw [hval, hx, ← sub_mul, abs_mul, abs_of_pos h2]
  calc |(round_half_even (scale p q e).1 (scale p q e).2 : ℚ)
          - ((scale p q e).1 : ℚ) / ((scale p q e).2 : ℚ)| * (2 : ℚ) ^ (e + s)
      ≤ 1 / 2 * (2 : ℚ) ^ (e + s) := mul_le_mul_of_nonneg_right hrhe h2.le
    _ = (2 : ℚ) ^ 52 * (2 : ℚ) ^ (e + s) / 2 ^ 53 := by ring
    _ ≤ ((scale p q e).1 : ℚ) / ((scale p q e).2 : ℚ) * (2 : ℚ) ^ (e + s) / 2 ^ 53 := by
        apply div_le_div_of_nonneg_right _ (by positivity)
        exact mul_le_mul_of_nonneg_right hlow h2.le

theorem scale_upper (p q : Nat) (hp : 0 < p) (hq : 0 < q) (e : Int)
    (he : e = (if 2 ^ 53 * (scale p q ((floor_log2 p : Int) - (floor_log2 q : Int) - 53)).2
                  ≤ (scale p q ((floor_log2 p : Int) - (floor_log2 q : Int) - 53)).1
                then (floor_log2 p : Int) - (floor_log2 q : Int) - 53 + 1
                else (floor_log2 p : Int) - (floor_log2 q : Int) - 53)) :
    ((scale p q e).1 : ℚ) / ((scale p q e).2 : ℚ) < (2 : ℚ) ^ 53 := by
  have hq' : (0 : ℚ) < q := by exact_mod_cast hq
  obtain ⟨hd, hs⟩ := scale_spec p q e hq
  have hd' : (0 : ℚ) < ((scale p q e).2 : ℚ) := by exact_mod_cast hd
  have hy : ((scale p q e).1 : ℚ) / ((scale p q e).2 : ℚ) = (p : ℚ) / q / (2 : ℚ) ^ e := by
    rw [← hs]; field_simp; ring
  obtain ⟨hd0, hs0⟩ := scale_spec p q ((floor_log2 p : Int) - (floor_log2 q : Int) - 53) hq
  have hd0' : (0 : ℚ) < ((scale p q ((floor_log2 p : Int) - (floor_log2 q : Int) - 53)).2 : ℚ) := by
    exact_mod_cast hd0
  have h2e0 : (0 : ℚ) < (2 : ℚ) ^ ((floor_log2 p : Int) - (floor_log2 q : Int) - 53) :=
    zpow_pos (by norm_num) _
  split at he
  · next hcase =>
    obtain ⟨_, hp2⟩ := floor_log2_spec p hp
    obtain ⟨hq1, _⟩ := floor_log2_spec q hq
    have hp2' : (p : ℚ) < (2 : ℚ) ^ ((floor_log2 p : ℤ) + 1) := by
      have : (p : ℚ) < (2 : ℚ) ^ (floor_log2 p + 1) := by exact_mod_cast hp2
      rw [show ((floor_log2 p : ℤ) + 1) = ((floor_log2 p + 1 : ℕ) : ℤ) by push_cast; rfl,
        zpow_natCast]
      exact this
    have hq1' : (2 : ℚ) ^ (floor_log2 q : ℤ) ≤ (q : ℚ) := by
      rw [zpow_natCast]; exact_mod_cast hq1
    rw [hy, he, div_lt_iff₀ (zpow_pos (by norm_num) _), div_lt_iff₀ hq']
    calc (p : ℚ) < (2 : ℚ) ^ ((floor_log2 p : ℤ) + 1) := hp2'
      _ = (2 : ℚ) ^ 53 * (2 : ℚ) ^ ((floor_log2 p : Int) - (floor_log2 q : Int) - 53 + 1)
            * (2 : ℚ) ^ (floor_log2 q : ℤ) := by
          rw [show ((2 : ℚ) ^ 53) = (2 : ℚ) ^ (53 : ℤ) by norm_num,
            ← zpow_add₀ (by norm_num : (2 : ℚ) ≠ 0), ← zpow_add₀ (by norm_num : (2 : ℚ) ≠ 0)]
          congr 1
          ring
      _ ≤ (2 : ℚ) ^ 53 * (2 : ℚ) ^ ((floor_log2 p : Int) - (floor_log2 q : Int) - 53 + 1)
            * (q : ℚ) :=
          mul_le_mul_of_nonneg_left hq1'
            (mul_nonneg (by norm_num) (zpow_pos (by norm_num) _).le)
  · next hcase =>
    rw [he, div_lt_iff₀ hd0']
    have : (scale p q ((floor_log2 p : Int) - (floor_log2 q : Int) - 53)).1
        < 2 ^ 53 * (scale p q ((floor_log2 p : Int) - (floor_log2 q : Int) - 53)).2 := by
      omega
    exact_mod_cast this

/-- A non-zero result of `Double.round` is normalised: its significand has
exactly 53 bits. -/
theorem Double.round_normalised (p q : Nat) (s : Int) (hp : 0 < p) (hq : 0 < q) :
    2 ^ 52 ≤ (Double.round p q s).mant ∧ (Double.round p q s).mant < 2 ^ 53 := by
  obtain ⟨e, he⟩ : ∃ e : Int,
      e = (if 2 ^ 53 * (scale p q ((floor_log2 p : Int) - (floor_log2 q : Int) - 53)).2
                  ≤ (scale p q ((floor_log2 p : Int) - (floor_log2 q : Int) - 53)).1
                then (floor_log2 p : Int) - (floor_log2 q : Int) - 53 + 1
                else (floor_log2 p : Int) - (floor_log2 q : Int) - 53) := ⟨_, rfl⟩
  have hlow := scale_lower p q hp hq e he
  have hup := scale_upper p q hp hq e he
  obtain ⟨hd, _⟩ := scale_spec p q e hq
  have hd' : (0 : ℚ) < ((scale p q e).2 : ℚ) := by exact_mod_cast hd
  rw [le_div_iff₀ hd'] at hlow
  rw [div_lt_iff₀ hd'] at hup
  have hlowN : 2 ^ 52 * (scale p q e).2 ≤ (scale p q e).1 := by exact_mod_cast hlow
  have hupN : (scale p q e).1 < 2 ^ 53 * (scale p q e).2 := by exact_mod_cast hup
  have hdiv1 : 2 ^ 52 ≤ (scale p q e).1 / (scale p q e).2 :=
    (Nat.le_div_iff_mul_le hd).2 hlowN
  have hdiv2 : (scale p q e).1 / (scale p q e).2 < 2 ^ 53 :=
    (Nat.div_lt_iff_lt_mul hd).2 hupN
  have hm : 2 ^ 52 ≤ round_half_even (scale p q e).1 (scale p q e).2
      ∧ round_half_even (scale p q e).1 (scale p q e).2 ≤ 2 ^ 53 := by
    unfold round_half_even
    split
    · omega
    · split
      · omega
      · split <;> omega
  simp only [Double.round, Nat.pos_iff_ne_zero.1 hp, if_false, ← he]
  split
  · norm_num
  · next hne =>
    simp only
    omega

theorem Double.to_rat_nonneg (d : Double) : 0 ≤ d.to_rat :=
  mul_nonneg (Nat.cast_nonneg _) (zpow_pos (by norm_num) _).le

theorem Double.mul_error (a b : Double) :
    |(Double.mul a b).to_rat - a.to_rat * b.to_rat| ≤ a.to_rat * b.to_rat / 2 ^ 53 := by
  have h := Double.round_error (a.mant * b.mant) 1 (a.exp + b.exp) (by decide)
  have hx : ((a.mant * b.mant : Nat) : ℚ) / ((1 : Nat) : ℚ) * (2 : ℚ) ^ (a.exp + b.exp)
      = a.to_rat * b.to_rat := by
    simp only [Double.to_rat]
    rw [zpow_add₀ (by norm_num : (2 : ℚ) ≠ 0)]
    push_cast
    ring
  rw [hx] at h
  exact h

theorem tick_seconds_error (timer_tick_ms : Nat) :
    |(Double.mul (Double.of_nat timer_tick_ms) (Double.of_fraction 1 1000)).to_rat
        - (timer_tick_ms : ℚ) / 1000| ≤ (timer_tick_ms : ℚ) / 1000 / 2 ^ 51 := by
  have hG : (0 : ℚ) ≤ (timer_tick_ms : ℚ) := Nat.cast_nonneg _
  have ha := Double.round_error timer_tick_ms 1 0 (by decide)
  have hc := Double.round_error 1 1000 0 (by decide)
  have hm := Double.mul_error (Double.of_nat timer_tick_ms) (Double.of_fraction 1 1000)
  have hA0 := Double.to_rat_nonneg (Double.of_nat timer_tick_ms)
  have hC0 := Double.to_rat_nonneg (Double.of_fraction 1 1000)
  simp only [Nat.cast_one, div_one, zpow_zero, mul_one, Nat.cast_ofNat] at ha hc
  change |(Double.of_nat timer_tick_ms).to_rat - _| ≤ _ at ha
  change |(Double.of_fraction 1 1000).to_rat - _| ≤ _ at hc
  generalize (Double.mul (Double.of_nat timer_tick_ms) (Double.of_fraction 1 1000)).to_rat = R
    at hm ⊢
  generalize (Double.of_nat timer_tick_ms).to_rat = A at ha hm hA0
  generalize (Double.of_fraction 1 1000).to_rat = C at hc hm hC0
  generalize (timer_tick_ms : ℚ) = G at ha hG ⊢
  rw [abs_le] at ha hc hm ⊢
  have hu : (0 : ℚ) < 1 / 2 ^ 53 := by norm_num
  have hAup : A ≤ G * (1 + 1 / 2 ^ 53) := by linarith [ha.2]
  have hAlo : G * (1 - 1 / 2 ^ 53) ≤ A := by linarith [ha.1]
  have hCup : C ≤ (1 + 1 / 2 ^ 53) / 1000 := by linarith [hc.2]
  have hClo : (1 - 1 / 2 ^ 53) / 1000 ≤ C := by linarith [hc.1]
  have hACup : A * C ≤ G * (1 + 1 / 2 ^ 53) * ((1 + 1 / 2 ^ 53) / 1000) :=
    mul_le_mul hAup hCup hC0 (by positivity)
  have hAClo : G * (1 - 1 / 2 ^ 53) * ((1 - 1 / 2 ^ 53) / 1000) ≤ A * C :=
    mul_le_mul hAlo hClo (by norm_num) hA0
  have hAC0 : 0 ≤ A * C := mul_nonneg hA0 hC0
  have hRup : R ≤ A * C * (1 + 1 / 2 ^ 53) := by linarith [hm.2]
  have hRlo : A * C * (1 - 1 / 2 ^ 53) ≤ R := by linarith [hm.1]
  have hRup2 : R ≤ G * (1 + 1 / 2 ^ 53) * ((1 + 1 / 2 ^ 53) / 1000) * (1 + 1 / 2 ^ 53) :=
    hRup.trans (mul_le_mul_of_nonneg_right hACup (by norm_num))
  have hRlo2 : G * (1 - 1 / 2 ^ 53) * ((1 - 1 / 2 ^ 53) / 1000) * (1 - 1 / 2 ^ 53) ≤ R :=
    (mul_le_mul_of_nonneg_right hAClo (by norm_num)).trans hRlo
  have k1 : G * (1 + 1 / 2 ^ 53) * ((1 + 1 / 2 ^ 53) / 1000) * (1 + 1 / 2 ^ 53)
      ≤ G / 1000 + G / 1000 / 2 ^ 51 := by
    have : G * (1 + 1 / 2 ^ 53) * ((1 + 1 / 2 ^ 53) / 1000) * (1 + 1 / 2 ^ 53)
        = G * ((1 + 1 / 2 ^ 53) * ((1 + 1 / 2 ^ 53) / 1000) * (1 + 1 / 2 ^ 53)) := by ring
    rw [this]
    have : G / 1000 + G / 1000 / 2 ^ 51 = G * (1 / 1000 + 1 / 1000 / 2 ^ 51) := by ring
    rw [this]
    exact mul_le_mul_of_nonneg_left (by norm_num) hG
  have k2 : G / 1000 - G / 1000 / 2 ^ 51
      ≤ G * (1 - 1 / 2 ^ 53) * ((1 - 1 / 2 ^ 53) / 1000) * (1 - 1 / 2 ^ 53) := by
    have : G * (1 - 1 / 2 ^ 53) * ((1 - 1 / 2 ^ 53) / 1000) * (1 - 1 / 2 ^ 53)
        = G * ((1 - 1 / 2 ^ 53) * ((1 - 1 / 2 ^ 53) / 1000) * (1 - 1 / 2 ^ 53)) := by ring
    rw [this]
    have : G / 1000 - G / 1000 / 2 ^ 51 = G * (1 / 1000 - 1 / 1000 / 2 ^ 51) := by ring
    rw [this]
    exact mul_le_mul_of_nonneg_left (by norm_num) hG
  constructor <;> linarith

theorem timer_tick_s_error (timer_tick_ms : Nat) :
    |TimerCallbackHive.timer_tick_s timer_tick_ms - (timer_tick_ms : ℚ) / 1000|
      ≤ (timer_tick_ms : ℚ) / 1000 / 2 ^ 51 :=
  tick_seconds_error timer_tick_ms

/-- The double `9 * 0.001`: it is `0.009000000000000001`, the number after the
double nearest to 0.009. -/
theorem timer_tick_s_nine :
    TimerCallbackHive.timer_tick_s 9 = 5188146770730812 / 2 ^ 59
      ∧ (Double.of_fraction 9 1000).to_rat = 5188146770730811 / 2 ^ 59 := by
  have h1 : Double.mul (Double.of_nat 9) (Double.of_fraction 1 1000)
      = ⟨5188146770730812, -59⟩ := by
    set_option maxRecDepth 100000 in decide
  have h2 : Double.of_fraction 9 1000 = ⟨5188146770730811, -59⟩ := by
    set_option maxRecDepth 100000 in decide
  unfold TimerCallbackHive.timer_tick_s
  rw [h1, h2]
  simp only [Double.to_rat]
  constructor <;> norm_num

/-! ## Facts about the map operations and `start` -/

theorem index_modify_append (a b : CallbackMap) (e : Nat × TimerCallbackData)
    (f : TimerCallbackData → TimerCallbackData) (h : ∀ x ∈ a, x.1 ≠ e.1) :
    CallbackMap.index_modify (a ++ e :: b) e.1 f = a ++ (e.1, f e.2) :: b := by
  induction a with
  | nil => simp [CallbackMap.index_modify]
  | cons x a ih =>
    have hx : x.1 ≠ e.1 := h x (List.mem_cons_self _ _)
    have ha : ∀ y ∈ a, y.1 ≠ e.1 := fun y hy => h y (List.mem_cons_of_mem _ hy)
    simp [CallbackMap.index_modify, hx, ih ha]

theorem foldl_index_modify (g : Nat → TimerCallbackData) (pre suf : CallbackMap)
    (h : CallbackMap.wf (pre ++ suf)) :
    List.foldl (fun acc e => CallbackMap.index_modify acc e.1 (fun _ => g e.1))
      (pre.map (fun e => (e.1, g e.1)) ++ suf) suf
      = (pre ++ suf).map (fun e => (e.1, g e.1)) := by
  induction suf generalizing pre with
  | nil => simp
  | cons e suf ih =>
    have hne : ∀ x ∈ pre.map (fun e => (e.1, g e.1)), x.1 ≠ e.1 := by
      intro x hx
      obtain ⟨y, hy, rfl⟩ := List.mem_map.1 hx
      unfold CallbackMap.wf at h
      rw [List.map_append, List.nodup_append] at h
      intro heq
      exact h.2.2 (List.mem_map_of_mem Prod.fst hy)
        (by rw [List.map_cons]; simp only at heq; rw [heq]; exact List.mem_cons_self _ _)
    rw [List.foldl_cons, index_modify_append _ _ _ _ hne]
    have h2 : CallbackMap.wf ((pre ++ [e]) ++ suf) := by simpa using h
    have := ih (pre ++ [e]) h2
    simpa using this

theorem start_counters_eq (mem : Nat → TimerCallback) (t : Nat) (m : CallbackMap)
    (h : m.wf) :
    TimerCallbackHive.start_counters mem t m
      = m.map (fun e => (e.1, TimerCallbackData.init ((mem e.1).interval_ms / t))) := by
  have := foldl_index_modify
    (fun k => TimerCallbackData.init ((mem k).interval_ms / t)) [] m (by simpa using h)
  simpa [TimerCallbackHive.start_counters] using this

theorem foldr_gcd_pos (l : List Nat) (hne : l ≠ []) (hpos : ∀ v ∈ l, 0 < v) :
    0 < l.foldr Nat.gcd 0 := by
  cases l with
  | nil => exact absurd rfl hne
  | cons a l =>
    exact Nat.gcd_pos_of_pos_left _ (hpos a (List.mem_cons_self _ _))

theorem start_eq (mem : Nat → TimerCallback) (self : TimerCallbackHive)
    (hrun : self.timer.running = false) (hne : self.callbacks ≠ [])
    (hpos : ∀ e ∈ self.callbacks, 0 < (mem e.1).interval_ms) :
    TimerCallbackHive.start mem self
      = (.ok (TimerCallbackHive.timer_tick_s
            ((TimerCallbackHive.callback_intervals mem self.callbacks).foldr Nat.gcd 0)),
          ⟨TimerCallbackHive.start_counters mem
              ((TimerCallbackHive.callback_intervals mem self.callbacks).foldr Nat.gcd 0)
              self.callbacks,
            ⟨TimerCallbackHive.timer_tick_s
              ((TimerCallbackHive.callback_intervals mem self.callbacks).foldr Nat.gcd 0),
              true⟩, true⟩) := by
  have hne2 : TimerCallbackHive.callback_intervals mem self.callbacks ≠ [] := by
    simpa [TimerCallbackHive.callback_intervals] using hne
  have hpos2 : ∀ v ∈ TimerCallbackHive.callback_intervals mem self.callbacks, 0 < v := by
    intro v hv
    obtain ⟨e, he, rfl⟩ := List.mem_map.1 hv
    exact hpos e he
  have hT := foldr_gcd_pos _ hne2 hpos2
  obtain ⟨front, rest, hfr⟩ := List.exists_cons_of_ne_nil hne2
  have hemp : self.callbacks.isEmpty = false := by
    cases hc : self.callbacks with
    | nil => exact absurd hc hne
    | cons _ _ => rfl
  unfold TimerCallbackHive.start
  rw [hrun, hemp, hfr, gcd_vector_cons]
  rw [hfr] at hT
  have hT2 : front.gcd (List.foldr Nat.gcd 0 rest) ≠ 0 := by
    simpa using Nat.pos_iff_ne_zero.1 hT
  simp [hT2]

/-! ## The test scenario -/

theorem test_hive_callbacks :
    test_hive.callbacks
      = [(1, ⟨0, 0, some 1⟩), (2, ⟨0, 0, some 2⟩), (3, ⟨0, 0, some 3⟩), (4, ⟨0, 0, some 4⟩)] := by
  decide

theorem test_hive_not_running : test_hive.timer.running = false := by decide

theorem test_hive_wf : test_hive.callbacks.wf := by
  unfold CallbackMap.wf; decide

theorem test_hive_pos : ∀ e ∈ test_hive.callbacks, 0 < (test_mem e.1).interval_ms := by
  decide

theorem test_hive_ne : test_hive.callbacks ≠ [] := by decide

theorem test_tick_ms :
    (TimerCallbackHive.callback_intervals test_mem test_hive.callbacks).foldr Nat.gcd 0 = 50 := by
  rw [test_hive_callbacks]
  simp [TimerCallbackHive.callback_intervals, test_mem]

theorem rounding_hive_callbacks : rounding_hive.callbacks = [(1, ⟨0, 0, some 1⟩)] := by
  decide

theorem rounding_hive_not_running : rounding_hive.timer.running = false := by decide

theorem rounding_hive_ne : rounding_hive.callbacks ≠ [] := by decide

theorem rounding_hive_pos :
    ∀ e ∈ rounding_hive.callbacks, 0 < (rounding_mem e.1).interval_ms := by
  decide

theorem rounding_tick_ms :
    (TimerCallbackHive.callback_intervals rounding_mem rounding_hive.callbacks).foldr Nat.gcd 0
      = 9 := by
  rw [rounding_hive_callbacks]
  simp [TimerCallbackHive.callback_intervals, rounding_mem]

/-- C1 (the claim as stated fails): with one registered group of 9 ms the
greatest common divisor is 9, and `start()` returns the double `9 * 0.001`,
which is `5188146770730812 / 2 ^ 59 = 0.009000000000000001...`: neither the
number 9/1000 nor the double nearest to it. -/
theorem start_tick_is_not_gcd_over_1000 :
    rounding_hive.timer.running = false ∧ rounding_hive.callbacks ≠ []
    ∧ (∀ e ∈ rounding_hive.callbacks, 0 < (rounding_mem e.1).interval_ms)
    ∧ (TimerCallbackHive.callback_intervals rounding_mem rounding_hive.callbacks).foldr
        Nat.gcd 0 = 9
    ∧ (TimerCallbackHive.start rounding_mem rounding_hive).1
        = .ok (5188146770730812 / 2 ^ 59)
    ∧ (TimerCallbackHive.start rounding_mem rounding_hive).1 ≠ .ok (9 / 1000)
    ∧ (TimerCallbackHive.start rounding_mem rounding_hive).1
        ≠ .ok (Double.of_fraction 9 1000).to_rat := by
  have hstart : (TimerCallbackHive.start rounding_mem rounding_hive).1
      = .ok (5188146770730812 / 2 ^ 59) := by
    rw [start_eq _ _ rounding_hive_not_running rounding_hive_ne rounding_hive_pos,
      rounding_tick_ms, timer_tick_s_nine.1]
  refine ⟨rounding_hive_not_running, rounding_hive_ne, rounding_hive_pos, rounding_tick_ms,
    hstart, ?_, ?_⟩
  · rw [hstart]
    intro h
    injection h with h
    norm_num at h
  · rw [hstart, timer_tick_s_nine.2]
    intro h
    injection h with h
    norm_num at h

/-- C1 (amended): on an inactive hive with a non-empty registry of positive
intervals, `start()` succeeds and returns the double
`static_cast<double>(tick_ms) * 0.001`, where `tick_ms` is the greatest common
divisor of the registered intervals: it divides every registered interval and
is divided by every common divisor of them.  The returned value differs from
`tick_ms / 1000` by at most `tick_ms / 1000 / 2 ^ 51`. -/
theorem start_returns_gcd_tick (mem : Nat → TimerCallback) (self : TimerCallbackHive)
    (hrun : self.timer.running = false) (hne : self.callbacks ≠ [])
    (hpos : ∀ e ∈ self.callbacks, 0 < (mem e.1).interval_ms) :
    ∃ tick_ms : Nat,
      tick_ms = (TimerCallbackHive.callback_intervals mem self.callbacks).foldr Nat.gcd 0
      ∧ (TimerCallbackHive.start mem self).1 = .ok (TimerCallbackHive.timer_tick_s tick_ms)
      ∧ |TimerCallbackHive.timer_tick_s tick_ms - (tick_ms : ℚ) / 1000|
          ≤ (tick_ms : ℚ) / 1000 / 2 ^ 51
      ∧ (∀ e ∈ self.callbacks, tick_ms ∣ (mem e.1).interval_ms)
      ∧ (∀ c : Nat, (∀ e ∈ self.callbacks, c ∣ (mem e.1).interval_ms) → c ∣ tick_ms)
      ∧ (TimerCallbackHive.start mem self).2.timer.running = true := by
  refine ⟨_, rfl, ?_, timer_tick_s_error _, ?_, ?_, ?_⟩
  · rw [start_eq mem self hrun hne hpos]
  · intro e he
    exact foldr_gcd_dvd _ _ (List.mem_map_of_mem _ he)
  · intro c hc
    apply dvd_foldr_gcd
    intro v hv
    obtain ⟨e, he, rfl⟩ := List.mem_map.1 hv
    exact hc e he
  · rw [start_eq mem self hrun hne hpos]

theorem start_returns_gcd_tick_witness :
    test_hive.timer.running = false ∧ test_hive.callbacks ≠ []
    ∧ (∀ e ∈ test_hive.callbacks, 0 < (test_mem e.1).interval_ms)
    ∧ ∃ tick_ms : Nat,
      tick_ms = 50
      ∧ (TimerCallbackHive.start test_mem test_hive).1
          = .ok (TimerCallbackHive.timer_tick_s tick_ms)
      ∧ |TimerCallbackHive.timer_tick_s tick_ms - (tick_ms : ℚ) / 1000|
          ≤ (tick_ms : ℚ) / 1000 / 2 ^ 51
      ∧ (∀ e ∈ test_hive.callbacks, tick_ms ∣ (test_mem e.1).interval_ms)
      ∧ (∀ c : Nat, (∀ e ∈ test_hive.callbacks, c ∣ (test_mem e.1).interval_ms) → c ∣ tick_ms)
      ∧ (TimerCallbackHive.start test_mem test_hive).2.timer.running = true := by
  have h := start_returns_gcd_tick test_mem test_hive test_hive_not_running test_hive_ne
    test_hive_pos
  rw [test_tick_ms] at h
  exact ⟨test_hive_not_running, test_hive_ne, test_hive_pos, h⟩

/-- The assertion of `timer_callback_test.cpp` on the first tick: the value
returned by `start()` is the double `50 * 0.001`, within 0.0001 of 0.05. -/
theorem test_start_tick :
    (TimerCallbackHive.start test_mem test_hive).1 = .ok (TimerCallbackHive.timer_tick_s 50)
      ∧ |TimerCallbackHive.timer_tick_s 50 - 5 / 100| < 1 / 10000 := by
  constructor
  · rw [start_eq _ _ test_hive_not_running test_hive_ne test_hive_pos, test_tick_ms]
  · have h := timer_tick_s_error 50
    have h2 : ((50 : Nat) : ℚ) / 1000 = 5 / 100 := by norm_num
    rw [h2] at h
    refine lt_of_le_of_lt h ?_
    norm_num

/-! ## Activation: `start` -/


/-- C7: `start()` throws `std::logic_error` exactly when the timer is running
or the registry is empty; with positive intervals it fails in no other way;
whenever it fails the hive (registry, counters, timer state) is unchanged. -/
theorem start_fails_iff (mem : Nat → TimerCallback) (self : TimerCallbackHive) :
    ((TimerCallbackHive.start mem self).1 = .error .logic_error
        ↔ (self.timer.running = true ∨ self.callbacks = []))
      ∧ ((∀ e ∈ self.callbacks, 0 < (mem e.1).interval_ms) →
          ((∃ err, (TimerCallbackHive.start mem self).1 = .error err)
            ↔ (self.timer.running = true ∨ self.callbacks = [])))
      ∧ (∀ err, (TimerCallbackHive.start mem self).1 = .error err →
          (TimerCallbackHive.start mem self).2 = self) := by
  have hfail : (self.timer.running = true ∨ self.callbacks = []) →
      TimerCallbackHive.start mem self = (.error .logic_error, self) := by
    intro h
    unfold TimerCallbackHive.start
    rcases h with h | h
    · simp [h]
    · by_cases hr : self.timer.running = true
      · simp [hr]
      · simp [hr, h]
  have hok : ¬ (self.timer.running = true ∨ self.callbacks = []) →
      (∀ e ∈ self.callbacks, 0 < (mem e.1).interval_ms) →
      ∃ t, (TimerCallbackHive.start mem self).1 = .ok t := by
    intro h hpos
    have hr : self.timer.running = false := by
      cases hb : self.timer.running with
      | true => exact absurd (Or.inl hb) h
      | false => rfl
    have hne : self.callbacks ≠ [] := fun hc => h (Or.inr hc)
    exact ⟨_, by rw [start_eq mem self hr hne hpos]⟩
  refine ⟨⟨?_, fun h => by rw [hfail h]⟩, ?_, ?_⟩
  · intro herr
    by_contra hcon
    have hr : self.timer.running = false := by
      cases hb : self.timer.running with
      | true => exact absurd (Or.inl hb) hcon
      | false => rfl
    have hne : self.callbacks ≠ [] := fun hc => hcon (Or.inr hc)
    obtain ⟨front, rest, hfr⟩ : ∃ front rest,
        TimerCallbackHive.callback_intervals mem self.callbacks = front :: rest := by
      apply List.exists_cons_of_ne_nil
      simpa [TimerCallbackHive.callback_intervals] using hne
    have hemp : self.callbacks.isEmpty = false := by
      cases hc : self.callbacks with
      | nil => exact absurd hc hne
      | cons _ _ => rfl
    unfold TimerCallbackHive.start at herr
    rw [hr, hemp, hfr, gcd_vector_cons] at herr
    simp only [Bool.false_eq_true, if_false] at herr
    split at herr <;> simp at herr
  · intro hpos
    constructor
    · rintro ⟨err, herr⟩
      by_contra hcon
      obtain ⟨t, ht⟩ := hok hcon hpos
      rw [ht] at herr
      cases herr
    · intro h
      exact ⟨_, by rw [hfail h]⟩
  · intro err herr
    unfold TimerCallbackHive.start at herr ⊢
    split at herr
    · simp [*]
    · split at herr
      · simp [*]
      · split at herr
        · simp [*]
        · split at herr
          · simp [*]
          · simp at herr

/-! ## The state machine: mutation while active, `stop` -/

theorem test_active_running : test_active.timer.running = true := by
  unfold test_active
  rw [start_eq _ _ test_hive_not_running test_hive_ne test_hive_pos]

/-- C5: while the timer is running, `add_callback`, `remove_callback` and
`clear` each throw `std::logic_error` for every argument and return the hive
exactly as it was (same registry, same counters, same stored pointers). -/
theorem mutation_rejected_while_active (self : TimerCallbackHive) (g : Nat)
    (hrun : self.timer.running = true) :
    self.add_callback g = (.error .logic_error, self)
      ∧ self.remove_callback g = (.error .logic_error, self)
      ∧ self.clear = (.error .logic_error, self) := by
  simp [TimerCallbackHive.add_callback, TimerCallbackHive.remove_callback,
    TimerCallbackHive.clear, hrun]

theorem mutation_rejected_while_active_witness :
    test_active.timer.running = true
    ∧ (test_active.add_callback 4 = (.error .logic_error, test_active)
      ∧ test_active.remove_callback 4 = (.error .logic_error, test_active)
      ∧ test_active.clear = (.error .logic_error, test_active)) :=
  ⟨test_active_running, mutation_rejected_while_active test_active 4 test_active_running⟩

/-- C9: `stop()` throws `std::logic_error` exactly when the timer is not
running and then leaves the hive unchanged; when the timer is running (as it
is after every successful `start()`), `stop()` succeeds, leaves the timer not
running with the registry untouched, and a second `stop()` right after throws. -/
theorem stop_fails_iff_inactive :
    (∀ self : TimerCallbackHive,
        ((self.stop).1 = .error .logic_error ↔ self.timer.running = false)
        ∧ (∀ err, (self.stop).1 = .error err → (self.stop).2 = self))
      ∧ (∀ (mem : Nat → TimerCallback) (self : TimerCallbackHive) (tick_s : ℚ),
          (TimerCallbackHive.start mem self).1 = .ok tick_s →
            ((TimerCallbackHive.start mem self).2.stop).1 = .ok ()
            ∧ ((TimerCallbackHive.start mem self).2.stop).2.timer.running = false
            ∧ ((TimerCallbackHive.start mem self).2.stop).2.callbacks
                = (TimerCallbackHive.start mem self).2.callbacks
            ∧ (((TimerCallbackHive.start mem self).2.stop).2.stop).1
                = .error .logic_error) := by
  have hstop : ∀ h : TimerCallbackHive, h.timer.running = true →
      h.stop = (.ok (), ⟨h.callbacks, ⟨h.timer.interval, false⟩, false⟩) := by
    intro h hr
    simp [TimerCallbackHive.stop, hr]
  have hstop2 : ∀ h : TimerCallbackHive, h.timer.running = false →
      h.stop = (.error .logic_error, h) := by
    intro h hr
    simp [TimerCallbackHive.stop, hr]
  refine ⟨fun self => ⟨⟨?_, fun h => by rw [hstop2 self h]⟩, ?_⟩, ?_⟩
  · intro herr
    cases hb : self.timer.running with
    | false => rfl
    | true => rw [hstop self hb] at herr; cases herr
  · intro err herr
    cases hb : self.timer.running with
    | false => rw [hstop2 self hb]
    | true => rw [hstop self hb] at herr; cases herr
  · intro mem self tick_s hok
    have hr : (TimerCallbackHive.start mem self).2.timer.running = true := by
      unfold TimerCallbackHive.start at hok ⊢
      split at hok
      · simp at hok
      · split at hok
        · simp at hok
        · split at hok
          · simp at hok
          · split at hok
            · simp at hok
            · simp [*]
    rw [hstop _ hr]
    refine ⟨rfl, rfl, rfl, ?_⟩
    rw [hstop2 _ rfl]

/-! ## Ownership and `get_interval` -/

/-- C3 (the code drops the reference): `add_callback` stores the shared
pointer in the new entry, but `start()` replaces every entry by a fresh
`TimerCallbackData`, whose pointer is empty; here for one group of 100 ms. -/
theorem start_drops_shared_pointer :
    ((empty_hive.add_callback 1).2.callbacks.find 1).map TimerCallbackData.callback
        = some (some 1)
      ∧ (TimerCallbackHive.start test_mem (empty_hive.add_callback 1).2).1
          = .ok (TimerCallbackHive.timer_tick_s 100)
      ∧ ((TimerCallbackHive.start test_mem (empty_hive.add_callback 1).2).2.callbacks.find 1).map
          TimerCallbackData.callback = some none := by
  have h1 : (empty_hive.add_callback 1).2 = ⟨[(1, ⟨0, 0, some 1⟩)], ⟨0, false⟩, false⟩ := by
    decide
  rw [h1]
  refine ⟨by decide, ?_, ?_⟩
  · rw [start_eq _ _ rfl (by simp) (by simp [test_mem])]
    simp [TimerCallbackHive.callback_intervals, test_mem]
  · rw [start_eq _ _ rfl (by simp) (by simp [test_mem])]
    simp [TimerCallbackHive.callback_intervals, test_mem, TimerCallbackHive.start_counters,
      CallbackMap.index_modify, CallbackMap.find, TimerCallbackData.init]

/-- C4 (the code returns milliseconds): a group created with 500 ms reports
`get_interval() = 500`, not the 0.5 seconds its documentation promises. -/
theorem get_interval_returns_milliseconds :
    ∃ t, TimerCallback.create 500 = .ok t ∧ t.get_interval = 500
      ∧ t.get_interval ≠ 500 / 1000 := by
  have h : Double.of_nat 500 = ⟨8796093022208000, -44⟩ := by decide
  refine ⟨⟨[], 500⟩, rfl, ?_, ?_⟩
  · simp only [TimerCallback.get_interval, h, Double.to_rat]
    norm_num
  · simp only [TimerCallback.get_interval, h, Double.to_rat]
    norm_num

/-! ## The vector gcd -/

/-- C10: for a non-empty list, `gcd(values)` returns a number that divides
every element and is divided by every common divisor of the elements; it is
the left fold of the two-argument gcd without the early exit at 1; and
`gcd([10,20,30,40,35]) = 5`, `gcd([10,20,30,40,37]) = 1`. -/
theorem gcd_vector_is_greatest_common_divisor :
    (∀ (front : Nat) (rest : List Nat),
      ∃ d, gcd_vector (front :: rest) = .ok d
        ∧ (∀ v ∈ front :: rest, d ∣ v)
        ∧ (∀ c : Nat, (∀ v ∈ front :: rest, c ∣ v) → c ∣ d)
        ∧ d = rest.foldl (fun result v => gcd v result) front)
      ∧ gcd_vector [10, 20, 30, 40, 35] = .ok 5
      ∧ gcd_vector [10, 20, 30, 40, 37] = .ok 1 := by
  refine ⟨fun front rest => ⟨_, gcd_vector_cons front rest, foldr_gcd_dvd _,
    fun c hc => dvd_foldr_gcd _ c hc, ?_⟩, ?_, ?_⟩
  · rw [foldl_gcd_eq]; rfl
  · simp [gcd_vector, gcd_vector_loop, gcd_eq_nat_gcd]
  · simp [gcd_vector, gcd_vector_loop, gcd_eq_nat_gcd]

/-! ## The callback thread -/

theorem pre_decrement_eq (c : Nat) (h1 : 1 ≤ c) (h2 : c < 2 ^ 64) :
    TimerCallbackHive.pre_decrement c = c - 1 := by
  have hp : (2 : Nat) ^ 64 = 18446744073709551616 := by norm_num
  unfold TimerCallbackHive.pre_decrement
  rw [hp] at h2 ⊢
  omega

/-- The entry of one key after `n` passes of the thread loop. -/
theorem thread_callbacks (n : Nat) (self : TimerCallbackHive) :
    (TimerCallbackHive.thread n self).2
      = ⟨self.callbacks.map
            (fun e => (e.1, (fun d => (TimerCallbackHive.thread_entry d).1)^[n] e.2)),
          self.timer, self.timer_thread⟩ := by
  induction n with
  | zero => simp [TimerCallbackHive.thread]
  | succ k ih =>
    simp only [TimerCallbackHive.thread, TimerCallbackHive.thread_tick, ih, List.map_map,
      Function.comp_def, Function.iterate_succ_apply']

theorem iterate_thread_entry (c n : Nat) (h1 : 1 ≤ c) (h2 : c < 2 ^ 64)
    (p : Option Nat) :
    (fun d => (TimerCallbackHive.thread_entry d).1)^[n] ⟨c, c, p⟩ = ⟨c - n % c, c, p⟩ := by
  induction n with
  | zero => simp
  | succ k ih =>
    rw [Function.iterate_succ_apply', ih]
    have hlt : k % c < c := Nat.mod_lt _ h1
    have hpd : TimerCallbackHive.pre_decrement (c - k % c) = c - k % c - 1 :=
      pre_decrement_eq _ (by omega) (by omega)
    simp only [TimerCallbackHive.thread_entry, hpd]
    by_cases hz : c - k % c - 1 = 0
    · have hk : k % c = c - 1 := by omega
      have : (k + 1) % c = 0 := by
        rw [Nat.add_mod, hk]
        by_cases hc1 : c = 1
        · subst hc1; simp
        · rw [Nat.mod_eq_of_lt (by omega : 1 < c)]
          have : c - 1 + 1 = c := by omega
          rw [this, Nat.mod_self]
      simp [hz, this]
    · have hk : k % c + 1 < c := by omega
      have : (k + 1) % c = k % c + 1 := by
        rw [Nat.add_mod, Nat.mod_eq_of_lt (by omega : 1 < c), Nat.mod_eq_of_lt hk]
      simp only [hz, if_false, this]
      congr 1

theorem thread_entry_fires (c k : Nat) (h1 : 1 ≤ c) (h2 : c < 2 ^ 64) (p : Option Nat) :
    (TimerCallbackHive.thread_entry ⟨c - k % c, c, p⟩).2 = decide (c ∣ k + 1) := by
  have hlt : k % c < c := Nat.mod_lt _ h1
  have hpd : TimerCallbackHive.pre_decrement (c - k % c) = c - k % c - 1 :=
    pre_decrement_eq _ (by omega) (by omega)
  simp only [TimerCallbackHive.thread_entry, hpd]
  by_cases hz : c - k % c - 1 = 0
  · have hk : k % c = c - 1 := by omega
    have : (k + 1) % c = 0 := by
      rw [Nat.add_mod, hk]
      by_cases hc1 : c = 1
      · subst hc1; simp
      · rw [Nat.mod_eq_of_lt (by omega : 1 < c)]
        have : c - 1 + 1 = c := by omega
        rw [this, Nat.mod_self]
    simp [hz, Nat.dvd_of_mod_eq_zero this]
  · have hk : k % c + 1 < c := by omega
    have : (k + 1) % c = k % c + 1 := by
      rw [Nat.add_mod, Nat.mod_eq_of_lt (by omega : 1 < c), Nat.mod_eq_of_lt hk]
    have hnd : ¬ c ∣ k + 1 := by
      intro hd
      have := Nat.mod_eq_zero_of_dvd hd
      omega
    simp [hz, hnd]

theorem thread_events_succ (k : Nat) (self : TimerCallbackHive) :
    (TimerCallbackHive.thread (k + 1) self).1
      = (TimerCallbackHive.thread k self).1
        ++ (self.callbacks.filterMap
              (fun e =>
                if (TimerCallbackHive.thread_entry
                      ((fun d => (TimerCallbackHive.thread_entry d).1)^[k] e.2)).2
                then some e.1 else none)).map (fun key => (k + 1, key)) := by
  simp only [TimerCallbackHive.thread, TimerCallbackHive.thread_tick, thread_callbacks,
    List.filterMap_map, Function.comp_def]

theorem filterMap_key_absent (m : CallbackMap) (key : Nat) (f : TimerCallbackData → Bool)
    (h : ∀ x ∈ m, x.1 ≠ key) :
    (m.filterMap (fun x => if f x.2 then some x.1 else none)).filter (fun k => k = key)
      = [] := by
  induction m with
  | nil => rfl
  | cons x m ih =>
    have hx : x.1 ≠ key := h x (List.mem_cons_self _ _)
    have hm := ih (fun y hy => h y (List.mem_cons_of_mem _ hy))
    by_cases hf : f x.2 = true
    · simp [List.filterMap_cons, hf, List.filter_cons, hx, hm]
    · simp [List.filterMap_cons, hf, hm]

theorem filterMap_key_present (m : CallbackMap) (hwf : m.wf) (e : Nat × TimerCallbackData)
    (he : e ∈ m) (f : TimerCallbackData → Bool) :
    (m.filterMap (fun x => if f x.2 then some x.1 else none)).filter (fun k => k = e.1)
      = if f e.2 then [e.1] else [] := by
  induction m with
  | nil => cases he
  | cons x m ih =>
    unfold CallbackMap.wf at hwf
    rw [List.map_cons, List.nodup_cons] at hwf
    rcases List.mem_cons.1 he with h | h
    · subst h
      have habs : ∀ y ∈ m, y.1 ≠ e.1 := by
        intro y hy heq
        exact hwf.1 (heq ▸ List.mem_map_of_mem Prod.fst hy)
      have hm := filterMap_key_absent m e.1 f habs
      by_cases hf : f e.2 = true
      · simp [List.filterMap_cons, hf, List.filter_cons, hm]
      · simp [List.filterMap_cons, hf, hm]
    · have hx : x.1 ≠ e.1 := by
        intro heq
        exact hwf.1 (heq ▸ List.mem_map_of_mem Prod.fst h)
      have hm := ih hwf.2 h
      by_cases hf : f x.2 = true
      · simp [List.filterMap_cons, hf, List.filter_cons, hx, hm]
      · simp [List.filterMap_cons, hf, hm]

theorem filter_events (l : List Nat) (t key : Nat) :
    (((l.map (fun k => (t, k))).filter (fun ev => ev.2 = key)).map Prod.fst)
      = (l.filter (fun k => k = key)).map (fun _ => t) := by
  induction l with
  | nil => rfl
  | cons a l ih =>
    by_cases ha : a = key
    · simp [List.filter_cons, ha, ih]
    · simp [List.filter_cons, ha, ih]

/-- Invocation ticks of one key over `n` passes, for a registry whose
counters have just been loaded. -/
theorem thread_invocation_ticks (self : TimerCallbackHive) (hwf : self.callbacks.wf)
    (key c : Nat) (p : Option Nat) (he : (key, ⟨c, c, p⟩) ∈ self.callbacks)
    (h1 : 1 ≤ c) (h2 : c < 2 ^ 64) (n : Nat) :
    (((TimerCallbackHive.thread n self).1.filter (fun ev => ev.2 = key)).map Prod.fst)
      = (List.range (n / c)).map (fun k => (k + 1) * c) := by
  induction n with
  | zero => simp [TimerCallbackHive.thread]
  | succ k ih =>
    have hkey := filterMap_key_present _ hwf _ he
      (fun d => (TimerCallbackHive.thread_entry
        ((fun d => (TimerCallbackHive.thread_entry d).1)^[k] d)).2)
    simp only [iterate_thread_entry c k h1 h2 p, thread_entry_fires c k h1 h2 p] at hkey
    rw [thread_events_succ, List.filter_append, List.map_append, ih, filter_events, hkey]
    rw [Nat.succ_div]
    by_cases hd : c ∣ k + 1
    · have hmul : (k / c + 1) * c = k + 1 := by
        have := Nat.div_mul_cancel hd
        rw [Nat.succ_div, if_pos hd] at this
        exact this
      simp [hd, List.range_succ, hmul]
    · simp [hd]

theorem start_thread_invocation_ticks (mem : Nat → TimerCallback) (self : TimerCallbackHive)
    (n : Nat) (hrun : self.timer.running = false)
    (hpos : ∀ e ∈ self.callbacks, 0 < (mem e.1).interval_ms)
    (hsize : ∀ e ∈ self.callbacks, (mem e.1).interval_ms < 2 ^ 64)
    (hwf : self.callbacks.wf) (e : Nat × TimerCallbackData) (he : e ∈ self.callbacks) :
    (((TimerCallbackHive.thread n (TimerCallbackHive.start mem self).2).1.filter
        (fun ev => ev.2 = e.1)).map Prod.fst)
      = (List.range
          (n / ((mem e.1).interval_ms
                / (TimerCallbackHive.callback_intervals mem self.callbacks).foldr Nat.gcd 0))).map
          (fun k => (k + 1)
            * ((mem e.1).interval_ms
                / (TimerCallbackHive.callback_intervals mem self.callbacks).foldr Nat.gcd 0)) := by
  have hne : self.callbacks ≠ [] := List.ne_nil_of_mem he
  have hdvd : (TimerCallbackHive.callback_intervals mem self.callbacks).foldr Nat.gcd 0
      ∣ (mem e.1).interval_ms := foldr_gcd_dvd _ _ (List.mem_map_of_mem _ he)
  have hT : 0 < (TimerCallbackHive.callback_intervals mem self.callbacks).foldr Nat.gcd 0 :=
    Nat.pos_of_dvd_of_pos hdvd (hpos e he)
  have hc1 : 1 ≤ (mem e.1).interval_ms
      / (TimerCallbackHive.callback_intervals mem self.callbacks).foldr Nat.gcd 0 :=
    Nat.div_pos (Nat.le_of_dvd (hpos e he) hdvd) hT
  have hc2 : (mem e.1).interval_ms
      / (TimerCallbackHive.callback_intervals mem self.callbacks).foldr Nat.gcd 0 < 2 ^ 64 :=
    lt_of_le_of_lt (Nat.div_le_self _ _) (hsize e he)
  have hstart := start_eq mem self hrun hne hpos
  rw [start_counters_eq mem _ _ hwf] at hstart
  rw [hstart]
  refine thread_invocation_ticks _ ?_ e.1 _ none ?_ hc1 hc2 n
  · unfold CallbackMap.wf at hwf ⊢
    simpa [Function.comp_def] using hwf
  · exact List.mem_map.2 ⟨e, he, rfl⟩

/-- C2: after a successful `start()`, over `n` passes of the thread loop a
registered group with interval `P` and tick `T` (the gcd of the registered
intervals) is invoked on the ticks `P/T, 2*(P/T), ..., (n / (P/T))*(P/T)` and on
no other tick, so exactly `n / (P/T)` times. -/
theorem invocations_exact_per_period (mem : Nat → TimerCallback) (self : TimerCallbackHive)
    (n : Nat) (hrun : self.timer.running = false)
    (hpos : ∀ e ∈ self.callbacks, 0 < (mem e.1).interval_ms)
    (hsize : ∀ e ∈ self.callbacks, (mem e.1).interval_ms < 2 ^ 64)
    (hwf : self.callbacks.wf) :
    ∀ e ∈ self.callbacks,
      (((TimerCallbackHive.thread n (TimerCallbackHive.start mem self).2).1.filter
          (fun ev => ev.2 = e.1)).map Prod.fst)
        = (List.range
            (n / ((mem e.1).interval_ms
                / (TimerCallbackHive.callback_intervals mem self.callbacks).foldr Nat.gcd 0))).map
            (fun k => (k + 1)
              * ((mem e.1).interval_ms
                / (TimerCallbackHive.callback_intervals mem self.callbacks).foldr Nat.gcd 0))
      ∧ ((TimerCallbackHive.thread n (TimerCallbackHive.start mem self).2).1.filter
          (fun ev => ev.2 = e.1)).length
        = n / ((mem e.1).interval_ms
                / (TimerCallbackHive.callback_intervals mem self.callbacks).foldr Nat.gcd 0) := by
  intro e he
  have h := start_thread_invocation_ticks mem self n hrun hpos hsize hwf e he
  refine ⟨h, ?_⟩
  have hl := congrArg List.length h
  simpa using hl

theorem test_hive_size : ∀ e ∈ test_hive.callbacks, (test_mem e.1).interval_ms < 2 ^ 64 := by
  decide

theorem invocations_exact_per_period_witness :
    test_hive.timer.running = false
    ∧ (∀ e ∈ test_hive.callbacks, 0 < (test_mem e.1).interval_ms)
    ∧ (∀ e ∈ test_hive.callbacks, (test_mem e.1).interval_ms < 2 ^ 64)
    ∧ test_hive.callbacks.wf
    ∧ ∀ e ∈ test_hive.callbacks,
      (((TimerCallbackHive.thread 100 (TimerCallbackHive.start test_mem test_hive).2).1.filter
          (fun ev => ev.2 = e.1)).map Prod.fst)
        = (List.range
            (100 / ((test_mem e.1).interval_ms
                / (TimerCallbackHive.callback_intervals test_mem test_hive.callbacks).foldr
                    Nat.gcd 0))).map
            (fun k => (k + 1)
              * ((test_mem e.1).interval_ms
                / (TimerCallbackHive.callback_intervals test_mem test_hive.callbacks).foldr
                    Nat.gcd 0))
      ∧ ((TimerCallbackHive.thread 100 (TimerCallbackHive.start test_mem test_hive).2).1.filter
          (fun ev => ev.2 = e.1)).length
        = 100 / ((test_mem e.1).interval_ms
                / (TimerCallbackHive.callback_intervals test_mem test_hive.callbacks).foldr
                    Nat.gcd 0) :=
  ⟨test_hive_not_running, test_hive_pos, test_hive_size, test_hive_wf,
    invocations_exact_per_period test_mem test_hive 100 test_hive_not_running test_hive_pos
      test_hive_size test_hive_wf⟩

/-- The counts asserted by `timer_callback_test.cpp`: over 100 ticks of 50 ms
the groups of 100, 500, 1000 and 250 ms are invoked 50, 10, 5 and 20 times. -/
theorem test_invocation_counts :
    ((TimerCallbackHive.thread 100 test_active).1.filter (fun ev => ev.2 = 1)).length = 50
    ∧ ((TimerCallbackHive.thread 100 test_active).1.filter (fun ev => ev.2 = 2)).length = 10
    ∧ ((TimerCallbackHive.thread 100 test_active).1.filter (fun ev => ev.2 = 3)).length = 5
    ∧ ((TimerCallbackHive.thread 100 test_active).1.filter (fun ev => ev.2 = 4)).length = 20 := by
  have key : ∀ e ∈ test_hive.callbacks,
      ((TimerCallbackHive.thread 100 test_active).1.filter (fun ev => ev.2 = e.1)).length
        = 100 / ((test_mem e.1).interval_ms / 50) := by
    intro e he
    have h := congrArg List.length
      (start_thread_invocation_ticks test_mem test_hive 100 test_hive_not_running test_hive_pos
        test_hive_size test_hive_wf e he)
    rw [test_tick_ms] at h
    simpa [test_active] using h
  rw [test_hive_callbacks] at key
  refine ⟨?_, ?_, ?_, ?_⟩
  · simpa [test_mem] using key (1, ⟨0, 0, some 1⟩) (by simp)
  · simpa [test_mem] using key (2, ⟨0, 0, some 2⟩) (by simp)
  · simpa [test_mem] using key (3, ⟨0, 0, some 3⟩) (by simp)
  · simpa [test_mem] using key (4, ⟨0, 0, some 4⟩) (by simp)

/-! ## Restarting with a changed registry -/

theorem callback_intervals_keys (mem : Nat → TimerCallback) (m : CallbackMap) :
    TimerCallbackHive.callback_intervals mem m
      = (m.map Prod.fst).map (fun k => (mem k).interval_ms) := by
  simp [TimerCallbackHive.callback_intervals, Function.comp_def]

theorem erase_keys (m : CallbackMap) (g : Nat) :
    (m.erase g).map Prod.fst = (m.map Prod.fst).filter (fun k => k ≠ g) := by
  unfold CallbackMap.erase
  rw [List.filter_map]
  rfl

theorem find_isSome_of_mem_keys (m : CallbackMap) (key : Nat) (h : key ∈ m.map Prod.fst) :
    (m.find key).isSome = true := by
  induction m with
  | nil => cases h
  | cons x m ih =>
    unfold CallbackMap.find at ih ⊢
    by_cases hx : x.1 = key
    · simp [List.find?_cons, hx]
    · have hm : key ∈ m.map Prod.fst := by
        rcases List.mem_cons.1 h with h' | h'
        · exact absurd h'.symm hx
        · exact h'
      simpa [List.find?_cons, hx] using ih hm

theorem add_callback_registered (self : TimerCallbackHive) (key : Nat)
    (hrun : self.timer.running = false) (h : key ∈ self.callbacks.map Prod.fst) :
    self.add_callback key = (.ok (), self) := by
  simp [TimerCallbackHive.add_callback, hrun, find_isSome_of_mem_keys _ _ h]

theorem foldl_add_callback_registered (self : TimerCallbackHive) (readd : List Nat)
    (hrun : self.timer.running = false) (h : ∀ r ∈ readd, r ∈ self.callbacks.map Prod.fst) :
    readd.foldl (fun h r => (h.add_callback r).2) self = self := by
  induction readd with
  | nil => rfl
  | cons r readd ih =>
    rw [List.foldl_cons, add_callback_registered self r hrun (h r (List.mem_cons_self _ _))]
    exact ih (fun x hx => h x (List.mem_cons_of_mem _ hx))

theorem restart_sequence_eq (mem : Nat → TimerCallback) (self : TimerCallbackHive)
    (n g : Nat) (readd : List Nat) (hrun : self.timer.running = false)
    (hne : self.callbacks ≠ [])
    (hpos : ∀ e ∈ self.callbacks, 0 < (mem e.1).interval_ms) (hwf : self.callbacks.wf)
    (hreadd : ∀ r ∈ readd, r ∈ (self.callbacks.erase g).map Prod.fst) :
    ((TimerCallbackHive.thread n (TimerCallbackHive.start mem self).2).2.stop).1 = .ok ()
    ∧ (((TimerCallbackHive.thread n (TimerCallbackHive.start mem self).2).2.stop).2.remove_callback
        g).1 = .ok ()
    ∧ (restart_sequence mem self n g readd).timer.running = false
    ∧ (restart_sequence mem self n g readd).callbacks.map Prod.fst
        = (self.callbacks.erase g).map Prod.fst := by
  have hstart := start_eq mem self hrun hne hpos
  rw [start_counters_eq mem _ _ hwf] at hstart
  unfold restart_sequence
  rw [hstart, thread_callbacks]
  simp only [TimerCallbackHive.stop, TimerCallbackHive.remove_callback, Bool.not_true,
    Bool.false_eq_true, if_false, true_and]
  have hkeys : ∀ (f : Nat × TimerCallbackData → Nat × TimerCallbackData),
      (∀ e, (f e).1 = e.1) →
      (CallbackMap.erase (self.callbacks.map f) g).map Prod.fst
        = (self.callbacks.erase g).map Prod.fst := by
    intro f hf
    rw [erase_keys, erase_keys, List.map_map]
    congr 1
    apply List.map_congr_left
    intro e _
    exact hf e
  rw [List.map_map]
  have hk := hkeys
    ((fun e => (e.1, (fun d => (TimerCallbackHive.thread_entry d).1)^[n] e.2)) ∘ fun e =>
      (e.1, TimerCallbackData.init ((mem e.1).interval_ms
        / List.foldr Nat.gcd 0 (TimerCallbackHive.callback_intervals mem self.callbacks))))
    (fun e => rfl)
  rw [foldl_add_callback_registered _ _ rfl
    (by
      intro r hr
      simp only
      rw [hk]
      exact hreadd r hr)]
  exact ⟨rfl, hk⟩

/-- The second `start()` of the restart scenario, in full: the keys other than
`g` remain, the tick is the gcd of their intervals, and every remaining entry
is a fresh `TimerCallbackData(interval_ms / tick)`. -/
theorem restart_start (mem : Nat → TimerCallback) (self : TimerCallbackHive)
    (n g : Nat) (readd : List Nat) (hrun : self.timer.running = false)
    (hpos : ∀ e ∈ self.callbacks, 0 < (mem e.1).interval_ms) (hwf : self.callbacks.wf)
    (hrem : ∃ k ∈ self.callbacks.map Prod.fst, k ≠ g)
    (hreadd : ∀ r ∈ readd, r ∈ self.callbacks.map Prod.fst ∧ r ≠ g)
    (tick_ms : Nat)
    (htick : tick_ms
      = (((self.callbacks.map Prod.fst).filter (fun k => k ≠ g)).map
          (fun k => (mem k).interval_ms)).foldr Nat.gcd 0) :
    ((TimerCallbackHive.thread n (TimerCallbackHive.start mem self).2).2.stop).1 = .ok ()
    ∧ (((TimerCallbackHive.thread n (TimerCallbackHive.start mem self).2).2.stop).2.remove_callback
        g).1 = .ok ()
    ∧ TimerCallbackHive.start mem (restart_sequence mem self n g readd)
        = (.ok (TimerCallbackHive.timer_tick_s tick_ms),
            ⟨((self.callbacks.map Prod.fst).filter (fun k => k ≠ g)).map
                (fun k => (k, TimerCallbackData.init ((mem k).interval_ms / tick_ms))),
              ⟨TimerCallbackHive.timer_tick_s tick_ms, true⟩, true⟩) := by
  obtain ⟨k0, hk0, hk0g⟩ := hrem
  have hne : self.callbacks ≠ [] := by
    intro h
    rw [h] at hk0
    cases hk0
  have hreadd2 : ∀ r ∈ readd, r ∈ (self.callbacks.erase g).map Prod.fst := by
    intro r hr
    rw [erase_keys]
    exact List.mem_filter.2 ⟨(hreadd r hr).1, by simpa using (hreadd r hr).2⟩
  obtain ⟨hstop, hremove, hrun5, hkeys5⟩ :=
    restart_sequence_eq mem self n g readd hrun hne hpos hwf hreadd2
  rw [erase_keys] at hkeys5
  have hne5 : (restart_sequence mem self n g readd).callbacks ≠ [] := by
    intro h
    rw [h] at hkeys5
    have hmem : k0 ∈ (self.callbacks.map Prod.fst).filter (fun k => k ≠ g) :=
      List.mem_filter.2 ⟨hk0, by simpa using hk0g⟩
    rw [← hkeys5] at hmem
    cases hmem
  have hpos5 : ∀ e ∈ (restart_sequence mem self n g readd).callbacks,
      0 < (mem e.1).interval_ms := by
    intro e he
    have hk : e.1 ∈ (self.callbacks.map Prod.fst).filter (fun k => k ≠ g) := by
      rw [← hkeys5]
      exact List.mem_map_of_mem Prod.fst he
    obtain ⟨x, hx, hxe⟩ := List.mem_map.1 (List.mem_of_mem_filter hk)
    rw [← hxe]
    exact hpos x hx
  have hwf5 : (restart_sequence mem self n g readd).callbacks.wf := by
    unfold CallbackMap.wf at hwf ⊢
    rw [hkeys5]
    exact hwf.filter _
  have hint : (TimerCallbackHive.callback_intervals mem
      (restart_sequence mem self n g readd).callbacks).foldr Nat.gcd 0 = tick_ms := by
    rw [callback_intervals_keys, hkeys5, htick]
  have hstart := start_eq mem _ hrun5 hne5 hpos5
  rw [start_counters_eq mem _ _ hwf5, hint] at hstart
  have hmap : (restart_sequence mem self n g readd).callbacks.map
      (fun e => (e.1, TimerCallbackData.init ((mem e.1).interval_ms / tick_ms)))
        = ((self.callbacks.map Prod.fst).filter (fun k => k ≠ g)).map
            (fun k => (k, TimerCallbackData.init ((mem k).interval_ms / tick_ms))) := by
    rw [← hkeys5, List.map_map]
    rfl
  rw [hmap] at hstart
  exact ⟨hstop, hremove, hstart⟩

theorem rounding_hive_pair_facts :
    rounding_hive_pair.timer.running = false
    ∧ (∀ e ∈ rounding_hive_pair.callbacks, 0 < (rounding_mem e.1).interval_ms)
    ∧ rounding_hive_pair.callbacks.wf
    ∧ (∃ k ∈ rounding_hive_pair.callbacks.map Prod.fst, k ≠ 2)
    ∧ (∀ r ∈ [1], r ∈ rounding_hive_pair.callbacks.map Prod.fst ∧ r ≠ 2)
    ∧ (((rounding_hive_pair.callbacks.map Prod.fst).filter (fun k => k ≠ 2)).map
          (fun k => (rounding_mem k).interval_ms)).foldr Nat.gcd 0 = 9 := by
  refine ⟨by decide, by decide, by unfold CallbackMap.wf; decide, ⟨1, by decide, by decide⟩,
    by decide, ?_⟩
  have hk : (rounding_hive_pair.callbacks.map Prod.fst).filter (fun k => k ≠ 2) = [1] := by
    decide
  rw [hk]
  simp [rounding_mem]

/-- C8 (the claim as stated fails): with the groups 9 ms and 250 ms
registered, after `start()`, three thread passes, `stop()`, removal of the
250 ms group and re-adding the 9 ms group, the gcd of the remaining intervals
is 9 and the second `start()` returns the double `9 * 0.001`, which is
`5188146770730812 / 2 ^ 59`: neither 9/1000 nor the double nearest to it. -/
theorem restart_tick_is_not_gcd_over_1000 :
    rounding_hive_pair.timer.running = false
    ∧ (∀ e ∈ rounding_hive_pair.callbacks, 0 < (rounding_mem e.1).interval_ms)
    ∧ (((rounding_hive_pair.callbacks.map Prod.fst).filter (fun k => k ≠ 2)).map
          (fun k => (rounding_mem k).interval_ms)).foldr Nat.gcd 0 = 9
    ∧ (TimerCallbackHive.start rounding_mem
          (restart_sequence rounding_mem rounding_hive_pair 3 2 [1])).1
        = .ok (5188146770730812 / 2 ^ 59)
    ∧ (TimerCallbackHive.start rounding_mem
          (restart_sequence rounding_mem rounding_hive_pair 3 2 [1])).1 ≠ .ok (9 / 1000)
    ∧ (TimerCallbackHive.start rounding_mem
          (restart_sequence rounding_mem rounding_hive_pair 3 2 [1])).1
        ≠ .ok (Double.of_fraction 9 1000).to_rat := by
  obtain ⟨h1, h2, h3, h4, h5, h6⟩ := rounding_hive_pair_facts
  have hstart : (TimerCallbackHive.start rounding_mem
      (restart_sequence rounding_mem rounding_hive_pair 3 2 [1])).1
        = .ok (5188146770730812 / 2 ^ 59) := by
    rw [(restart_start rounding_mem rounding_hive_pair 3 2 [1] h1 h2 h3 h4 h5 9 h6.symm).2.2,
      timer_tick_s_nine.1]
  refine ⟨h1, h2, h6, hstart, ?_, ?_⟩
  · rw [hstart]
    intro h
    injection h with h
    norm_num at h
  · rw [hstart, timer_tick_s_nine.2]
    intro h
    injection h with h
    norm_num at h

/-- C8 (amended): after `start()`, `n` thread passes, `stop()`,
`remove_callback(g)` and re-adding groups that are still registered (every
call succeeding), the next `start()` returns the double
`static_cast<double>(tick_ms) * 0.001`, within `tick_ms / 1000 / 2 ^ 51` of
`tick_ms / 1000`, where `tick_ms` is the gcd of the intervals of the
registered groups other than `g`; exactly these groups stay registered and
each gets `counter_init = counter = interval_ms / tick_ms`. -/
theorem restart_recomputes_tick (mem : Nat → TimerCallback) (self : TimerCallbackHive)
    (n g : Nat) (readd : List Nat) (hrun : self.timer.running = false)
    (hpos : ∀ e ∈ self.callbacks, 0 < (mem e.1).interval_ms) (hwf : self.callbacks.wf)
    (hrem : ∃ k ∈ self.callbacks.map Prod.fst, k ≠ g)
    (hreadd : ∀ r ∈ readd, r ∈ self.callbacks.map Prod.fst ∧ r ≠ g) :
    ∃ tick_ms : Nat,
      tick_ms
        = (((self.callbacks.map Prod.fst).filter (fun k => k ≠ g)).map
            (fun k => (mem k).interval_ms)).foldr Nat.gcd 0
      ∧ ((TimerCallbackHive.thread n (TimerCallbackHive.start mem self).2).2.stop).1 = .ok ()
      ∧ (((TimerCallbackHive.thread n
            (TimerCallbackHive.start mem self).2).2.stop).2.remove_callback g).1 = .ok ()
      ∧ (TimerCallbackHive.start mem (restart_sequence mem self n g readd)).1
          = .ok (TimerCallbackHive.timer_tick_s tick_ms)
      ∧ |TimerCallbackHive.timer_tick_s tick_ms - (tick_ms : ℚ) / 1000|
          ≤ (tick_ms : ℚ) / 1000 / 2 ^ 51
      ∧ (TimerCallbackHive.start mem
            (restart_sequence mem self n g readd)).2.callbacks.map Prod.fst
          = (self.callbacks.map Prod.fst).filter (fun k => k ≠ g)
      ∧ ∀ e ∈ (TimerCallbackHive.start mem (restart_sequence mem self n g readd)).2.callbacks,
          e.2.counter_init = (mem e.1).interval_ms / tick_ms
            ∧ e.2.counter = e.2.counter_init := by
  obtain ⟨hstop, hremove, hstart⟩ :=
    restart_start mem self n g readd hrun hpos hwf hrem hreadd _ rfl
  refine ⟨_, rfl, hstop, hremove, ?_, timer_tick_s_error _, ?_, ?_⟩
  · rw [hstart]
  · rw [hstart]
    simp only [List.map_map, Function.comp_def, List.map_id']
  · rw [hstart]
    intro e he
    obtain ⟨k, _, rfl⟩ := List.mem_map.1 he
    exact ⟨rfl, rfl⟩

theorem test_hive_remaining : ∃ k ∈ test_hive.callbacks.map Prod.fst, k ≠ 4 :=
  ⟨1, by decide, by decide⟩

theorem test_hive_readd :
    ∀ r ∈ [1, 2, 3], r ∈ test_hive.callbacks.map Prod.fst ∧ r ≠ 4 := by
  decide

theorem test_remaining_keys :
    (test_hive.callbacks.map Prod.fst).filter (fun k => k ≠ 4) = [1, 2, 3] := by
  decide

/-- The second tick asserted by `timer_callback_test.cpp`: without the 250 ms
group the gcd of the remaining intervals is 100 ms. -/
theorem test_restart_tick_ms :
    (([1, 2, 3] : List Nat).map (fun k => (test_mem k).interval_ms)).foldr Nat.gcd 0 = 100 := by
  simp [test_mem]

theorem restart_recomputes_tick_witness :
    test_hive.timer.running = false
    ∧ (∀ e ∈ test_hive.callbacks, 0 < (test_mem e.1).interval_ms)
    ∧ test_hive.callbacks.wf
    ∧ (∃ k ∈ test_hive.callbacks.map Prod.fst, k ≠ 4)
    ∧ (∀ r ∈ [1, 2, 3], r ∈ test_hive.callbacks.map Prod.fst ∧ r ≠ 4)
    ∧ ∃ tick_ms : Nat,
      tick_ms = 100
      ∧ ((TimerCallbackHive.thread 100 (TimerCallbackHive.start test_mem test_hive).2).2.stop).1
          = .ok ()
      ∧ (((TimerCallbackHive.thread 100
            (TimerCallbackHive.start test_mem test_hive).2).2.stop).2.remove_callback 4).1
          = .ok ()
      ∧ (TimerCallbackHive.start test_mem
            (restart_sequence test_mem test_hive 100 4 [1, 2, 3])).1
          = .ok (TimerCallbackHive.timer_tick_s tick_ms)
      ∧ |TimerCallbackHive.timer_tick_s tick_ms - (tick_ms : ℚ) / 1000|
          ≤ (tick_ms : ℚ) / 1000 / 2 ^ 51
      ∧ (TimerCallbackHive.start test_mem
            (restart_sequence test_mem test_hive 100 4 [1, 2, 3])).2.callbacks.map Prod.fst
          = [1, 2, 3]
      ∧ ∀ e ∈ (TimerCallbackHive.start test_mem
            (restart_sequence test_mem test_hive 100 4 [1, 2, 3])).2.callbacks,
          e.2.counter_init = (test_mem e.1).interval_ms / tick_ms
            ∧ e.2.counter = e.2.counter_init := by
  have h := restart_recomputes_tick test_mem test_hive 100 4 [1, 2, 3] test_hive_not_running
    test_hive_pos test_hive_wf test_hive_remaining test_hive_readd
  rw [test_remaining_keys, test_restart_tick_ms] at h
  exact ⟨test_hive_not_running, test_hive_pos, test_hive_wf, test_hive_remaining,
    test_hive_readd, h⟩

/-- The assertion of `timer_callback_test.cpp` on the second tick: the value
returned by the second `start()` is the double `100 * 0.001`, within 0.0001 of
0.1, and the three remaining groups get the counters 1, 5 and 10. -/
theorem test_restart_tick :
    TimerCallbackHive.start test_mem (restart_sequence test_mem test_hive 100 4 [1, 2, 3])
        = (.ok (TimerCallbackHive.timer_tick_s 100),
            ⟨[(1, ⟨1, 1, none⟩), (2, ⟨5, 5, none⟩), (3, ⟨10, 10, none⟩)],
              ⟨TimerCallbackHive.timer_tick_s 100, true⟩, true⟩)
      ∧ |TimerCallbackHive.timer_tick_s 100 - 1 / 10| < 1 / 10000 := by
  constructor
  · have h := (restart_start test_mem test_hive 100 4 [1, 2, 3] test_hive_not_running
      test_hive_pos test_hive_wf test_hive_remaining test_hive_readd 100
      (by rw [test_remaining_keys, test_restart_tick_ms])).2.2
    rw [test_remaining_keys] at h
    rw [h]
    simp [test_mem, TimerCallbackData.init]
  · have h := timer_tick_s_error 100
    have h2 : ((100 : Nat) : ℚ) / 1000 = 1 / 10 := by norm_num
    rw [h2] at h
    refine lt_of_le_of_lt h ?_
    norm_num

/-! ## The two-argument gcd and the error case of the vector gcd -/

/-- C11: for all natural numbers `a` and `b`, in particular for all positive
ones, the two-argument gcd is symmetric and divides both arguments. -/
theorem gcd_comm_and_divides (a b : Nat) :
    gcd a b = gcd b a ∧ gcd a b ∣ a ∧ gcd a b ∣ b := by
  rw [gcd_eq_nat_gcd, gcd_eq_nat_gcd]
  exact ⟨Nat.gcd_comm a b, Nat.gcd_dvd_left a b, Nat.gcd_dvd_right a b⟩

/-- The value asserted by `test_gcd.cpp`: `gcd(10, 5) == 5`. -/
theorem test_gcd_pair : gcd 10 5 = 5 := by
  simp [gcd_eq_nat_gcd]

/-- C12: for all natural numbers the two-argument gcd is the greatest common
divisor: `gcd(0, b) = b`, `gcd(a, 0) = a`, `gcd(0, 0) = 0`, the result divides
both arguments, and every common divisor of `a` and `b` divides it. -/
theorem gcd_is_greatest_common_divisor (a b : Nat) :
    gcd 0 b = b ∧ gcd a 0 = a ∧ gcd 0 0 = 0
      ∧ gcd a b ∣ a ∧ gcd a b ∣ b
      ∧ (∀ c : Nat, c ∣ a → c ∣ b → c ∣ gcd a b)
      ∧ gcd a b = Nat.gcd a b := by
  simp only [gcd_eq_nat_gcd]
  exact ⟨Nat.gcd_zero_left b, Nat.gcd_zero_right a, rfl, Nat.gcd_dvd_left a b,
    Nat.gcd_dvd_right a b, fun c h1 h2 => Nat.dvd_gcd h1 h2, trivial⟩

/-- C13: the vector gcd throws `std::invalid_argument` exactly on the empty
vector (and succeeds on every other one), and on a one-element vector it
returns that element. -/
theorem gcd_vector_fails_iff_empty :
    (∀ values : List Nat,
        (gcd_vector values = .error .invalid_argument ↔ values = [])
        ∧ ((∃ err, gcd_vector values = .error err) ↔ values = [])
        ∧ (values ≠ [] → ∃ d, gcd_vector values = .ok d))
      ∧ (∀ n : Nat, gcd_vector [n] = .ok n) := by
  refine ⟨fun values => ?_, fun n => rfl⟩
  cases values with
  | nil => simp [gcd_vector]
  | cons front rest => simp [gcd_vector]

/-! ## TimerCallback: creation and the function set -/

theorem add_callback_function_mem (t : TimerCallback) (f : Nat) :
    f ∈ (t.add_callback_function f).callbacks := by
  unfold TimerCallback.add_callback_function
  by_cases h : f ∈ t.callbacks
  · simp [h]
  · simp [h]

theorem add_callback_function_of_mem (t : TimerCallback) (f : Nat) (h : f ∈ t.callbacks) :
    t.add_callback_function f = t := by
  simp [TimerCallback.add_callback_function, h]

theorem add_callback_function_nodup (t : TimerCallback) (f : Nat) (h : t.callbacks.Nodup) :
    (t.add_callback_function f).callbacks.Nodup := by
  unfold TimerCallback.add_callback_function
  by_cases hf : f ∈ t.callbacks
  · simpa [hf] using h
  · simpa [hf] using List.nodup_cons.2 ⟨hf, h⟩

/-- C14: adding a function a second time leaves the group as it is after the
first add; on a group whose function set has no duplicates, `invoke()` then
calls the function exactly once, and every other member exactly once. -/
theorem add_callback_function_idempotent (t : TimerCallback) (f : Nat)
    (hset : t.callbacks.Nodup) :
    (t.add_callback_function f).add_callback_function f = t.add_callback_function f
      ∧ ((t.add_callback_function f).add_callback_function f).invoke.count f = 1
      ∧ (∀ g ∈ ((t.add_callback_function f).add_callback_function f).invoke,
          ((t.add_callback_function f).add_callback_function f).invoke.count g = 1)
      ∧ (∀ g, g ∈ ((t.add_callback_function f).add_callback_function f).invoke
          ↔ g = f ∨ g ∈ t.callbacks) := by
  have hmem := add_callback_function_mem t f
  have hidem : (t.add_callback_function f).add_callback_function f
      = t.add_callback_function f := add_callback_function_of_mem _ f hmem
  have hnd := add_callback_function_nodup t f hset
  rw [hidem]
  refine ⟨rfl, ?_, ?_, ?_⟩
  · exact List.count_eq_one_of_mem hnd hmem
  · intro g hg
    exact List.count_eq_one_of_mem hnd hg
  · intro g
    unfold TimerCallback.invoke TimerCallback.add_callback_function
    by_cases hf : f ∈ t.callbacks
    · simp only [hf, if_true]
      constructor
      · exact fun h => Or.inr h
      · rintro (h | h)
        · exact h ▸ hf
        · exact h
    · simp [hf]

theorem add_callback_function_idempotent_witness :
    (test_mem 1).callbacks.Nodup
    ∧ (((test_mem 1).add_callback_function 7).add_callback_function 7
          = (test_mem 1).add_callback_function 7
      ∧ (((test_mem 1).add_callback_function 7).add_callback_function 7).invoke.count 7 = 1
      ∧ (∀ g ∈ (((test_mem 1).add_callback_function 7).add_callback_function 7).invoke,
          (((test_mem 1).add_callback_function 7).add_callback_function 7).invoke.count g = 1)
      ∧ (∀ g, g ∈ (((test_mem 1).add_callback_function 7).add_callback_function 7).invoke
          ↔ g = 7 ∨ g ∈ (test_mem 1).callbacks)) :=
  ⟨by decide, add_callback_function_idempotent (test_mem 1) 7 (by decide)⟩

/-- C15: `create` throws `std::invalid_argument` exactly for the interval 0;
for a positive interval it returns a group with that interval and no
functions; every group it returns has a positive interval, and adding or
removing functions does not change the interval. -/
theorem create_fails_iff_zero (interval_ms : Nat) :
    (TimerCallback.create interval_ms = .error .invalid_argument ↔ interval_ms = 0)
      ∧ ((∃ err, TimerCallback.create interval_ms = .error err) ↔ interval_ms = 0)
      ∧ (0 < interval_ms → TimerCallback.create interval_ms = .ok ⟨[], interval_ms⟩)
      ∧ (∀ t, TimerCallback.create interval_ms = .ok t →
          0 < t.interval_ms ∧ t.interval_ms = interval_ms ∧ t.callbacks = []
          ∧ (∀ f, (t.add_callback_function f).interval_ms = t.interval_ms
              ∧ (t.remove_callback_function f).interval_ms = t.interval_ms)) := by
  unfold TimerCallback.create
  by_cases h : interval_ms = 0
  · simp [h]
  · have hp : 0 < interval_ms := Nat.pos_of_ne_zero h
    rw [if_neg h]
    refine ⟨by simp [h], by simp [h], fun _ => rfl, ?_⟩
    intro t ht
    cases ht
    refine ⟨hp, rfl, rfl, ?_⟩
    intro f
    simp [TimerCallback.add_callback_function, TimerCallback.remove_callback_function]

/-! ## Registration while inactive -/

theorem index_modify_absent (m : CallbackMap) (key : Nat)
    (f : TimerCallbackData → TimerCallbackData) (h : ∀ x ∈ m, x.1 ≠ key) :
    m.index_modify key f = m ++ [(key, f (TimerCallbackData.init 0))] := by
  induction m with
  | nil => rfl
  | cons x m ih =>
    have hx : x.1 ≠ key := h x (List.mem_cons_self _ _)
    have hm := ih (fun y hy => h y (List.mem_cons_of_mem _ hy))
    simp [CallbackMap.index_modify, hx, hm]

theorem find_absent (m : CallbackMap) (key : Nat) (h : ∀ x ∈ m, x.1 ≠ key) :
    m.find key = none := by
  unfold CallbackMap.find
  rw [Option.map_eq_none', List.find?_eq_none]
  intro x hx
  simpa using h x hx

theorem add_callback_new (self : TimerCallbackHive) (g : Nat)
    (hrun : self.timer.running = false) (h : g ∉ self.callbacks.map Prod.fst) :
    self.add_callback g
      = (.ok (), ⟨self.callbacks ++ [(g, ⟨0, 0, some g⟩)], self.timer, self.timer_thread⟩) := by
  have habs : ∀ x ∈ self.callbacks, x.1 ≠ g := by
    intro x hx heq
    exact h (heq ▸ List.mem_map_of_mem Prod.fst hx)
  have h2 := index_modify_append self.callbacks [] (g, TimerCallbackData.init 0)
    (fun d => ⟨d.counter, d.counter_init, some g⟩) habs
  simp only [TimerCallbackHive.add_callback, hrun, find_absent _ _ habs,
    index_modify_absent _ _ _ habs, h2]
  rfl

/-- C16: on a hive whose timer is not running, `add_callback(g)` succeeds;
when `g` is already registered the hive is returned unchanged; otherwise the
registry gains exactly one entry, for `g`, with both counters 0 and the shared
pointer to `g`, and every other entry and the timer are as before. -/
theorem add_callback_inactive (self : TimerCallbackHive) (g : Nat)
    (hrun : self.timer.running = false) :
    (g ∈ self.callbacks.map Prod.fst → self.add_callback g = (.ok (), self))
      ∧ (g ∉ self.callbacks.map Prod.fst →
          (self.add_callback g).1 = .ok ()
          ∧ List.Perm (self.add_callback g).2.callbacks ((g, ⟨0, 0, some g⟩) :: self.callbacks)
          ∧ (self.add_callback g).2.callbacks.find g = some ⟨0, 0, some g⟩
          ∧ (∀ e ∈ self.callbacks, e ∈ (self.add_callback g).2.callbacks)
          ∧ (self.add_callback g).2.timer = self.timer
          ∧ (self.add_callback g).2.timer_thread = self.timer_thread) := by
  refine ⟨add_callback_registered self g hrun, ?_⟩
  intro h
  rw [add_callback_new self g hrun h]
  refine ⟨rfl, List.perm_append_singleton _ _, ?_, ?_, rfl, rfl⟩
  · have habs : ∀ x ∈ self.callbacks, ¬ (x.1 = g) := by
      intro x hx heq
      exact h (heq ▸ List.mem_map_of_mem Prod.fst hx)
    unfold CallbackMap.find
    have hnone : List.find? (fun e => decide (e.1 = g)) self.callbacks = none := by
      rw [List.find?_eq_none]
      intro x hx
      simpa using habs x hx
    simp [List.find?_append, hnone]
  · intro e he
    exact List.mem_append_left _ he

theorem add_callback_inactive_witness :
    test_hive.timer.running = false
    ∧ ((3 ∈ test_hive.callbacks.map Prod.fst → test_hive.add_callback 3 = (.ok (), test_hive))
      ∧ (3 ∉ test_hive.callbacks.map Prod.fst →
          (test_hive.add_callback 3).1 = .ok ()
          ∧ List.Perm (test_hive.add_callback 3).2.callbacks
              ((3, ⟨0, 0, some 3⟩) :: test_hive.callbacks)
          ∧ (test_hive.add_callback 3).2.callbacks.find 3 = some ⟨0, 0, some 3⟩
          ∧ (∀ e ∈ test_hive.callbacks, e ∈ (test_hive.add_callback 3).2.callbacks)
          ∧ (test_hive.add_callback 3).2.timer = test_hive.timer
          ∧ (test_hive.add_callback 3).2.timer_thread = test_hive.timer_thread)) :=
  ⟨test_hive_not_running, add_callback_inactive test_hive 3 test_hive_not_running⟩

/-- Both branches of `add_callback` on concrete hives: the first registration
of group 1 on the empty hive, and the repeated registration of group 3 in the
test. -/
theorem test_add_callback :
    (empty_hive.add_callback 1).2.callbacks = [(1, ⟨0, 0, some 1⟩)]
    ∧ test_hive.add_callback 3 = (.ok (), test_hive) := by
  refine ⟨by decide, ?_⟩
  exact add_callback_registered test_hive 3 test_hive_not_running (by decide)

/-! ## Safety of the counters and of the division -/

theorem start_tick_bounds (mem : Nat → TimerCallback) (m : CallbackMap)
    (hpos : ∀ e ∈ m, 0 < (mem e.1).interval_ms) (e : Nat × TimerCallbackData) (he : e ∈ m) :
    1 ≤ (TimerCallbackHive.callback_intervals mem m).foldr Nat.gcd 0
      ∧ (TimerCallbackHive.callback_intervals mem m).foldr Nat.gcd 0 ≤ (mem e.1).interval_ms
      ∧ 1 ≤ (mem e.1).interval_ms / (TimerCallbackHive.callback_intervals mem m).foldr Nat.gcd 0
      ∧ (mem e.1).interval_ms / (TimerCallbackHive.callback_intervals mem m).foldr Nat.gcd 0
          ≤ (mem e.1).interval_ms := by
  have hdvd : (TimerCallbackHive.callback_intervals mem m).foldr Nat.gcd 0
      ∣ (mem e.1).interval_ms := foldr_gcd_dvd _ _ (List.mem_map_of_mem _ he)
  have hT : 0 < (TimerCallbackHive.callback_intervals mem m).foldr Nat.gcd 0 :=
    Nat.pos_of_dvd_of_pos hdvd (hpos e he)
  have hle := Nat.le_of_dvd (hpos e he) hdvd
  exact ⟨hT, hle, Nat.div_pos hle hT, Nat.div_le_self _ _⟩

/-- C18: in every state reached from a successful `start()` by `n` passes of
the thread loop, the registered keys are those before `start()` and every
entry has `counter_init = interval_ms / tick` and `1 <= counter <=
counter_init`; so the next pre-decrement acts on a non-zero counter and does
not wrap around. -/
theorem counter_stays_in_range (mem : Nat → TimerCallback) (self : TimerCallbackHive)
    (n : Nat) (hrun : self.timer.running = false) (hne : self.callbacks ≠ [])
    (hpos : ∀ e ∈ self.callbacks, 0 < (mem e.1).interval_ms)
    (hsize : ∀ e ∈ self.callbacks, (mem e.1).interval_ms < 2 ^ 64)
    (hwf : self.callbacks.wf) :
    (TimerCallbackHive.thread n (TimerCallbackHive.start mem self).2).2.callbacks.map Prod.fst
        = self.callbacks.map Prod.fst
      ∧ ∀ e ∈ (TimerCallbackHive.thread n (TimerCallbackHive.start mem self).2).2.callbacks,
          e.2.counter_init
              = (mem e.1).interval_ms
                / (TimerCallbackHive.callback_intervals mem self.callbacks).foldr Nat.gcd 0
          ∧ 1 ≤ e.2.counter ∧ e.2.counter ≤ e.2.counter_init
          ∧ e.2.counter ≠ 0
          ∧ TimerCallbackHive.pre_decrement e.2.counter = e.2.counter - 1 := by
  have hstart := start_eq mem self hrun hne hpos
  rw [start_counters_eq mem _ _ hwf] at hstart
  rw [hstart, thread_callbacks]
  simp only [List.map_map, Function.comp_def]
  refine ⟨trivial, ?_⟩
  intro e he
  obtain ⟨x, hx, rfl⟩ := List.mem_map.1 he
  obtain ⟨_, _, hc1, hc2⟩ := start_tick_bounds mem self.callbacks hpos x hx
  have hc3 := lt_of_le_of_lt hc2 (hsize x hx)
  have hit := iterate_thread_entry _ n hc1 hc3 none
  simp only [TimerCallbackData.init]
  rw [hit]
  have hmod : n % ((mem x.1).interval_ms
      / (TimerCallbackHive.callback_intervals mem self.callbacks).foldr Nat.gcd 0)
        < (mem x.1).interval_ms
          / (TimerCallbackHive.callback_intervals mem self.callbacks).foldr Nat.gcd 0 :=
    Nat.mod_lt _ hc1
  refine ⟨rfl, ?_, ?_, ?_, ?_⟩
  · simp only; omega
  · simp only; omega
  · simp only; omega
  · exact pre_decrement_eq _ (by simp only; omega) (by simp only; omega)

theorem counter_stays_in_range_witness :
    test_hive.timer.running = false ∧ test_hive.callbacks ≠ []
    ∧ (∀ e ∈ test_hive.callbacks, 0 < (test_mem e.1).interval_ms)
    ∧ (∀ e ∈ test_hive.callbacks, (test_mem e.1).interval_ms < 2 ^ 64)
    ∧ test_hive.callbacks.wf
    ∧ ((TimerCallbackHive.thread 100
          (TimerCallbackHive.start test_mem test_hive).2).2.callbacks.map Prod.fst
        = test_hive.callbacks.map Prod.fst
      ∧ ∀ e ∈ (TimerCallbackHive.thread 100
          (TimerCallbackHive.start test_mem test_hive).2).2.callbacks,
          e.2.counter_init
              = (test_mem e.1).interval_ms
                / (TimerCallbackHive.callback_intervals test_mem test_hive.callbacks).foldr
                    Nat.gcd 0
          ∧ 1 ≤ e.2.counter ∧ e.2.counter ≤ e.2.counter_init
          ∧ e.2.counter ≠ 0
          ∧ TimerCallbackHive.pre_decrement e.2.counter = e.2.counter - 1) :=
  ⟨test_hive_not_running, test_hive_ne, test_hive_pos, test_hive_size, test_hive_wf,
    counter_stays_in_range test_mem test_hive 100 test_hive_not_running test_hive_ne
      test_hive_pos test_hive_size test_hive_wf⟩

/-- C20: for a non-empty registry of positive intervals the tick computed by
`start()` is at least 1 and at most every registered interval, so the
division `interval_ms / timer_tick_ms` has a non-zero divisor, `start()` does
not end in undefined behaviour, and every entry gets `counter_init >= 1`. -/
theorem start_division_defined (mem : Nat → TimerCallback) (self : TimerCallbackHive)
    (hrun : self.timer.running = false) (hne : self.callbacks ≠ [])
    (hpos : ∀ e ∈ self.callbacks, 0 < (mem e.1).interval_ms) (hwf : self.callbacks.wf) :
    ∃ timer_tick_ms,
      gcd_vector (TimerCallbackHive.callback_intervals mem self.callbacks) = .ok timer_tick_ms
      ∧ 1 ≤ timer_tick_ms
      ∧ (∀ e ∈ self.callbacks, timer_tick_ms ≤ (mem e.1).interval_ms)
      ∧ (∀ e ∈ self.callbacks, 1 ≤ (mem e.1).interval_ms / timer_tick_ms)
      ∧ (TimerCallbackHive.start mem self).1 ≠ .error .undefined_behaviour
      ∧ (∀ e ∈ (TimerCallbackHive.start mem self).2.callbacks, 1 ≤ e.2.counter_init) := by
  obtain ⟨front, rest, hfr⟩ : ∃ front rest,
      TimerCallbackHive.callback_intervals mem self.callbacks = front :: rest := by
    apply List.exists_cons_of_ne_nil
    simpa [TimerCallbackHive.callback_intervals] using hne
  have hgcd : gcd_vector (TimerCallbackHive.callback_intervals mem self.callbacks)
      = .ok ((TimerCallbackHive.callback_intervals mem self.callbacks).foldr Nat.gcd 0) := by
    rw [hfr]
    exact gcd_vector_cons front rest
  obtain ⟨e0, he0⟩ := List.exists_mem_of_ne_nil _ hne
  refine ⟨_, hgcd, (start_tick_bounds mem _ hpos e0 he0).1,
    fun e he => (start_tick_bounds mem _ hpos e he).2.1,
    fun e he => (start_tick_bounds mem _ hpos e he).2.2.1, ?_, ?_⟩
  · rw [start_eq mem self hrun hne hpos]
    simp
  · have hstart := start_eq mem self hrun hne hpos
    rw [start_counters_eq mem _ _ hwf] at hstart
    rw [hstart]
    intro e he
    obtain ⟨x, hx, rfl⟩ := List.mem_map.1 he
    exact (start_tick_bounds mem _ hpos x hx).2.2.1

theorem start_division_defined_witness :
    test_hive.timer.running = false ∧ test_hive.callbacks ≠ []
    ∧ (∀ e ∈ test_hive.callbacks, 0 < (test_mem e.1).interval_ms)
    ∧ test_hive.callbacks.wf
    ∧ ∃ timer_tick_ms,
      gcd_vector (TimerCallbackHive.callback_intervals test_mem test_hive.callbacks)
        = .ok timer_tick_ms
      ∧ 1 ≤ timer_tick_ms
      ∧ (∀ e ∈ test_hive.callbacks, timer_tick_ms ≤ (test_mem e.1).interval_ms)
      ∧ (∀ e ∈ test_hive.callbacks, 1 ≤ (test_mem e.1).interval_ms / timer_tick_ms)
      ∧ (TimerCallbackHive.start test_mem test_hive).1 ≠ .error .undefined_behaviour
      ∧ (∀ e ∈ (TimerCallbackHive.start test_mem test_hive).2.callbacks, 1 ≤ e.2.counter_init) :=
  ⟨test_hive_not_running, test_hive_ne, test_hive_pos, test_hive_wf,
    start_division_defined test_mem test_hive test_hive_not_running test_hive_ne test_hive_pos
      test_hive_wf⟩

/-! ## Independence of the iteration order -/

theorem foldr_gcd_perm (l l' : List Nat) (h : l.Perm l') :
    l.foldr Nat.gcd 0 = l'.foldr Nat.gcd 0 := by
  induction h with
  | nil => rfl
  | cons x _ ih => simp only [List.foldr_cons, ih]
  | swap x y l =>
    simp only [List.foldr_cons]
    rw [← Nat.gcd_assoc, ← Nat.gcd_assoc, Nat.gcd_comm y x]
  | trans _ _ ih1 ih2 => exact ih1.trans ih2

theorem gcd_vector_eq (values : List Nat) :
    gcd_vector values
      = if values = [] then .error .invalid_argument else .ok (values.foldr Nat.gcd 0) := by
  cases values with
  | nil => rfl
  | cons front rest => simp [gcd_vector_cons]

theorem start_fst (mem : Nat → TimerCallback) (self : TimerCallbackHive) :
    (TimerCallbackHive.start mem self).1
      = if self.timer.running then .error .logic_error
        else if self.callbacks.isEmpty then .error .logic_error
        else match gcd_vector (TimerCallbackHive.callback_intervals mem self.callbacks) with
          | .error e => .error e
          | .ok timer_tick_ms =>
            if timer_tick_ms = 0 then .error .undefined_behaviour
            else .ok (TimerCallbackHive.timer_tick_s timer_tick_ms) := by
  unfold TimerCallbackHive.start
  split
  · rfl
  · split
    · rfl
    · split
      · simp [*]
      · split <;> simp [*]

/-- C19: the vector gcd returns the same outcome on a list and on every
reordering of it, and so does the left fold without the early exit; hence
`start()` returns the same outcome for two hives whose registries differ
only in iteration order. -/
theorem gcd_vector_order_independent (values values' : List Nat) (mem : Nat → TimerCallback)
    (h h' : TimerCallbackHive) (hp : values.Perm values')
    (hc : h.callbacks.Perm h'.callbacks) (ht : h.timer.running = h'.timer.running) :
    gcd_vector values = gcd_vector values'
      ∧ (∀ front rest front' rest', values = front :: rest → values' = front' :: rest' →
          rest.foldl (fun result v => gcd v result) front
            = rest'.foldl (fun result v => gcd v result) front')
      ∧ (TimerCallbackHive.start mem h).1 = (TimerCallbackHive.start mem h').1 := by
  have hfold := foldr_gcd_perm values values' hp
  refine ⟨?_, ?_, ?_⟩
  · rw [gcd_vector_eq, gcd_vector_eq, hfold]
    by_cases hv : values = []
    · have hv' : values' = [] := by
        rw [hv] at hp
        exact List.perm_nil.1 hp.symm
      simp [hv, hv']
    · have hv' : values' ≠ [] := by
        intro hn
        rw [hn] at hp
        exact hv (List.perm_nil.1 hp)
      simp [hv, hv']
  · intro front rest front' rest' h1 h2
    rw [foldl_gcd_eq, foldl_gcd_eq]
    have := hfold
    rw [h1, h2] at this
    simpa using this
  · have hint : (TimerCallbackHive.callback_intervals mem h.callbacks).Perm
        (TimerCallbackHive.callback_intervals mem h'.callbacks) := hc.map _
    have hemp : h.callbacks.isEmpty = h'.callbacks.isEmpty := by
      cases h1 : h.callbacks with
      | nil =>
        rw [h1] at hc
        rw [List.perm_nil.1 hc.symm]
      | cons x xs =>
        cases h2 : h'.callbacks with
        | nil =>
          rw [h2] at hc
          rw [List.perm_nil.1 hc] at h1
          cases h1
        | cons y ys => rfl
    rw [start_fst, start_fst, ht, hemp, gcd_vector_eq, gcd_vector_eq,
      foldr_gcd_perm _ _ hint]
    by_cases hv : TimerCallbackHive.callback_intervals mem h.callbacks = []
    · have hv' : TimerCallbackHive.callback_intervals mem h'.callbacks = [] := by
        rw [hv] at hint
        exact List.perm_nil.1 hint.symm
      simp [hv, hv']
    · have hv' : TimerCallbackHive.callback_intervals mem h'.callbacks ≠ [] := by
        intro hn
        rw [hn] at hint
        exact hv (List.perm_nil.1 hint)
      simp [hv, hv']

theorem test_values_perm : List.Perm [10, 20, 30, 40, 35] [35, 40, 30, 20, 10] := by
  decide

theorem test_hive_reordered_perm : test_hive.callbacks.Perm test_hive_reordered.callbacks :=
  (List.reverse_perm _).symm

theorem gcd_vector_order_independent_witness :
    List.Perm [10, 20, 30, 40, 35] [35, 40, 30, 20, 10]
    ∧ test_hive.callbacks.Perm test_hive_reordered.callbacks
    ∧ test_hive.timer.running = test_hive_reordered.timer.running
    ∧ (gcd_vector [10, 20, 30, 40, 35] = gcd_vector [35, 40, 30, 20, 10]
      ∧ (∀ front rest front' rest', [10, 20, 30, 40, 35] = front :: rest →
          [35, 40, 30, 20, 10] = front' :: rest' →
          rest.foldl (fun result v => gcd v result) front
            = rest'.foldl (fun result v => gcd v result) front')
      ∧ (TimerCallbackHive.start test_mem test_hive).1
          = (TimerCallbackHive.start test_mem test_hive_reordered).1) :=
  ⟨test_values_perm, test_hive_reordered_perm, rfl,
    gcd_vector_order_independent [10, 20, 30, 40, 35] [35, 40, 30, 20, 10] test_mem test_hive
      test_hive_reordered test_values_perm test_hive_reordered_perm rfl⟩

end TimedCallbacks
